import Mathlib

/-!
Verification of the in-memory block file system implemented in `src/hh.c`
(repository trevcong/file-system).

The C code is shallowly embedded: the `filesystem_t` heap structure becomes
the `Filesystem` record (arrays become `List`s, the `uint8_t` used/free maps
become `List Bool`), and each C function becomes a Lean function returning
the C `int` result together with the updated state.  C `for` loops become
structural recursion over the list of visited indices (`List.range`), so
that every definition evaluates by kernel reduction on concrete inputs.

Machine-integer remarks (all arithmetic is on `Nat`):
* `free_blocks`/`free_inodes` are `uint32_t` counters.  The only decrement
  sites run immediately after the scan found a free map entry, and the
  free-count invariant proved below shows the counter is then positive, so
  the `uint32_t` wraparound of `x - 1` at `x = 0` is unreachable and `Nat`
  subtraction agrees with the C semantics on every reachable state.
* `inode.size` (`uint32_t`) and `inode.num_blocks` (`uint8_t`) are stored
  only after the `needed_blocks > MAX_BLOCKS` guard, which bounds the
  stored values by `MAX_FILE_SIZE = 1024` and `MAX_BLOCKS = 16`; neither
  store can truncate.
* The inode timestamp fields (`created`, `modified`, set from `time(NULL)`)
  are omitted: they are an external input with no bearing on any claim.
-/

def MAX_FILENAME : Nat := 32
def MAX_FILES : Nat := 256
def MAX_FILE_SIZE : Nat := 1024
def BLOCK_SIZE : Nat := 64
def MAX_BLOCKS : Nat := MAX_FILE_SIZE / BLOCK_SIZE

/-- Number of `false` (= free, `0` in the C map) entries of a used/free map. -/
def countFalse : List Bool → Nat
  | [] => 0
  | true :: l => countFalse l
  | false :: l => countFalse l + 1

/-- `memcpy(dst + off, src, src.length)`: overwrite `dst` starting at
position `off` with the bytes of `src` (positions past `dst.length` are
dropped; all call sites stay in range). -/
def writeBytes (dst : List Nat) (off : Nat) : List Nat → List Nat
  | [] => dst
  | b :: bs => writeBytes (dst.set off b) (off + 1) bs

/-- The scan `for (i = 0; ...) if (!map[i]) return i;` of `find_free_inode`
and `find_free_block`: the first `false` position of the map. -/
def firstFreeAux : List Bool → Option Nat
  | [] => none
  | true :: l => (firstFreeAux l).map (· + 1)
  | false :: _ => some 0

/-- `inode_t` (timestamps omitted, see the header comment).  `blocks` models
the fixed `uint32_t blocks[MAX_BLOCKS]` array, so it always has length
`MAX_BLOCKS`; only the first `num_blocks` entries are meaningful. -/
structure Inode where
  name : List Char
  size : Nat
  blocks : List Nat
  num_blocks : Nat
  is_directory : Bool

/-- The all-zero inode record: fresh `calloc` storage, and the result of the
`memset(inode, 0, sizeof(inode_t))` in `fs_delete`. -/
def zeroInode : Inode :=
  { name := [], size := 0, blocks := List.replicate MAX_BLOCKS 0
    num_blocks := 0, is_directory := false }

/-- `filesystem_t`. -/
structure Filesystem where
  total_blocks : Nat
  free_blocks : Nat
  total_inodes : Nat
  free_inodes : Nat
  blocks : List (List Nat)
  inodes : List Inode
  block_map : List Bool
  inode_map : List Bool

/-- The inode record at index `i` (reads of `fs->inodes[i]`). -/
def inoAt (fs : Filesystem) (i : Nat) : Inode := fs.inodes.getD i zeroInode

/-- `fs->inode_map[i]`: the inode slot `i` is live. -/
def liveIdx (fs : Filesystem) (i : Nat) : Bool := fs.inode_map.getD i false

/-- `fs->block_map[b]`: the block `b` is allocated. -/
def blockUsed (fs : Filesystem) (b : Nat) : Bool := fs.block_map.getD b false

/-- `fs_create` (the successful-allocation path): all counters at capacity,
both maps all-free, `calloc`-zeroed block and inode storage. -/
def fs_create : Filesystem :=
  { total_blocks := MAX_FILE_SIZE / BLOCK_SIZE
    free_blocks := MAX_FILE_SIZE / BLOCK_SIZE
    total_inodes := MAX_FILES
    free_inodes := MAX_FILES
    blocks := List.replicate (MAX_FILE_SIZE / BLOCK_SIZE) (List.replicate BLOCK_SIZE 0)
    inodes := List.replicate MAX_FILES zeroInode
    block_map := List.replicate (MAX_FILE_SIZE / BLOCK_SIZE) false
    inode_map := List.replicate MAX_FILES false }

/-- `find_free_inode`: first-fit scan of `inode_map[0 .. total_inodes)`;
on success marks the slot used and decrements `free_inodes`. -/
def find_free_inode (fs : Filesystem) : Option Nat × Filesystem :=
  match firstFreeAux (fs.inode_map.take fs.total_inodes) with
  | some i =>
      (some i, { fs with inode_map := fs.inode_map.set i true
                         free_inodes := fs.free_inodes - 1 })
  | none => (none, fs)

/-- `find_free_block`: first-fit scan of `block_map[0 .. total_blocks)`;
on success marks the block used and decrements `free_blocks`. -/
def find_free_block (fs : Filesystem) : Option Nat × Filesystem :=
  match firstFreeAux (fs.block_map.take fs.total_blocks) with
  | some i =>
      (some i, { fs with block_map := fs.block_map.set i true
                         free_blocks := fs.free_blocks - 1 })
  | none => (none, fs)

/-- The name-lookup loop shared by `fs_create_file` (existence check),
`fs_write`, `fs_read` and `fs_delete`: first `i` in the given index list
with `inode_map[i] && strcmp(inodes[i].name, filename) == 0`. -/
def findFrom (fs : Filesystem) (filename : List Char) : List Nat → Option Nat
  | [] => none
  | i :: rest =>
      if fs.inode_map.getD i false = true ∧ (inoAt fs i).name = filename then some i
      else findFrom fs filename rest

/-- Resolve a file name to its inode index (scan of `0 .. total_inodes`). -/
def findInode (fs : Filesystem) (filename : List Char) : Option Nat :=
  findFrom fs filename (List.range fs.total_inodes)

/-- Update the inode record at index `i` in place (writes through the
`inode_t* inode = &fs->inodes[i]` pointer). -/
def updInode (fs : Filesystem) (i : Nat) (f : Inode → Inode) : Filesystem :=
  { fs with inodes := fs.inodes.set i (f (fs.inodes.getD i zeroInode)) }

/-- `fs_create_file`.  Note the name guard of the C source rejects only
`strlen(filename) >= MAX_FILENAME`; there is no empty-name check.  The
`strncpy(inode->name, filename, MAX_FILENAME - 1)` store is modelled by
`filename.take (MAX_FILENAME - 1)` (equal to `filename` under the guard).
The `blocks` array of the slot is not initialized by the C code and keeps
its previous contents. -/
def fs_create_file (fs : Filesystem) (filename : List Char) : Int × Filesystem :=
  if MAX_FILENAME ≤ filename.length then (-1, fs)
  else match findInode fs filename with
  | some _ => (-1, fs)
  | none =>
      match find_free_inode fs with
      | (none, fs1) => (-1, fs1)
      | (some inum, fs1) =>
          (Int.ofNat inum,
            updInode fs1 inum (fun ino =>
              { ino with name := filename.take (MAX_FILENAME - 1),
                         size := 0, num_blocks := 0, is_directory := false }))

/-- The block-freeing loop of `fs_write` and `fs_delete`:
`for (i = 0; i < count; i++) { block_map[ino.blocks[i]] = 0; free_blocks++; }`,
run over the index list `js`. -/
def freeLoop (ino : Inode) : Filesystem → List Nat → Filesystem
  | fs, [] => fs
  | fs, j :: rest =>
      freeLoop ino
        { fs with block_map := fs.block_map.set (ino.blocks.getD j 0) false
                  free_blocks := fs.free_blocks + 1 } rest

/-- The allocation-and-copy loop of `fs_write`, over the index list `js`
(called with `List.range needed`).  Each step allocates one block, records
it in `inode->blocks[i]`, and copies the `i`-th chunk of `data`; the final
chunk has length `size % BLOCK_SIZE` (the literal C expression).  A failed
allocation aborts with `false` and the state reached so far. -/
def writeLoop (inum : Nat) (data : List Nat) (needed : Nat) :
    Filesystem → List Nat → Bool × Filesystem
  | fs, [] => (true, fs)
  | fs, i :: rest =>
      match find_free_block fs with
      | (none, fs1) => (false, fs1)
      | (some b, fs1) =>
          let fs2 := updInode fs1 inum (fun ino => { ino with blocks := ino.blocks.set i b })
          let chunk := (data.drop (i * BLOCK_SIZE)).take
            (if i = needed - 1 then data.length % BLOCK_SIZE else BLOCK_SIZE)
          let fs3 :=
            { fs2 with blocks := fs2.blocks.set b (writeBytes (fs2.blocks.getD b []) 0 chunk) }
          writeLoop inum data needed fs3 rest

/-- The allocate-and-commit half of `fs_write`: runs after the old blocks
were freed.  On success stores `size` and `num_blocks` through the inode
pointer and returns `size`; on exhaustion returns `-1` with the partial
state. -/
def writeAlloc (inum : Nat) (data : List Nat) (needed : Nat)
    (fs : Filesystem) : Int × Filesystem :=
  match writeLoop inum data needed fs (List.range needed) with
  | (false, fs2) => (-1, fs2)
  | (true, fs2) =>
      (Int.ofNat data.length,
        updInode fs2 inum (fun ino =>
          { ino with size := data.length, num_blocks := needed }))

/-- `fs_write`: full overwrite.  Rejects empty data, unknown names and
`needed_blocks > MAX_BLOCKS`; then frees every currently-owned block and
only afterwards allocates the new ones. -/
def fs_write (fs : Filesystem) (filename : List Char) (data : List Nat) :
    Int × Filesystem :=
  if data.length = 0 then (-1, fs)
  else match findInode fs filename with
  | none => (-1, fs)
  | some inum =>
      let needed := (data.length + (BLOCK_SIZE - 1)) / BLOCK_SIZE
      if MAX_BLOCKS < needed then (-1, fs)
      else
        let ino := inoAt fs inum
        writeAlloc inum data needed
          (freeLoop ino fs (List.range ino.num_blocks))

/-- The copy loop of `fs_read` over the block positions `js` (called with
`List.range num_blocks`): block `i` contributes `BLOCK_SIZE` bytes, except
the final block which contributes `to_read % BLOCK_SIZE` bytes (the literal
C expression), written into the caller's buffer at offset `i * BLOCK_SIZE`. -/
def readLoop (fs : Filesystem) (ino : Inode) (to_read : Nat) :
    List Nat → List Nat → List Nat
  | buffer, [] => buffer
  | buffer, i :: rest =>
      readLoop fs ino to_read
        (writeBytes buffer (i * BLOCK_SIZE)
          ((fs.blocks.getD (ino.blocks.getD i 0) []).take
            (if i = ino.num_blocks - 1 then to_read % BLOCK_SIZE else BLOCK_SIZE)))
        rest

/-- `fs_read`: resolves the name, computes `to_read = min(size, inode.size)`,
runs the copy loop on the caller's buffer and returns `to_read`.  The
filesystem state is not modified, so only the buffer is returned. -/
def fs_read (fs : Filesystem) (filename : List Char) (buffer : List Nat)
    (size : Nat) : Int × List Nat :=
  match findInode fs filename with
  | none => (-1, buffer)
  | some inum =>
      let ino := inoAt fs inum
      let to_read := min size ino.size
      (Int.ofNat to_read,
        readLoop fs ino to_read buffer (List.range ino.num_blocks))

/-- `fs_delete`: frees every block of the inode's list, then frees the inode
slot and zeroes the record. -/
def fs_delete (fs : Filesystem) (filename : List Char) : Int × Filesystem :=
  match findInode fs filename with
  | none => (-1, fs)
  | some inum =>
      let ino := inoAt fs inum
      let fs1 := freeLoop ino fs (List.range ino.num_blocks)
      (0, { fs1 with inode_map := fs1.inode_map.set inum false
                     free_inodes := fs1.free_inodes + 1
                     inodes := fs1.inodes.set inum zeroInode })

/-- Block `b` occurs among the first `num_blocks` entries of some live
inode's block list (Boolean, so it evaluates on concrete states). -/
def referencedB (fs : Filesystem) (b : Nat) : Bool :=
  (List.range MAX_FILES).any fun i =>
    fs.inode_map.getD i false &&
    ((List.range (inoAt fs i).num_blocks).any fun j =>
      (inoAt fs i).blocks.getD j 0 == b)

/-- Block `b` is marked used but no live inode's active block list mentions
it: the pool entry is unreachable for every free path of the code. -/
def Leaked (fs : Filesystem) (b : Nat) : Prop :=
  blockUsed fs b = true ∧ referencedB fs b = false

/-- Total number of blocks referenced by live inodes. -/
def sumNumBlocks (fs : Filesystem) : Nat :=
  ∑ i ∈ Finset.range MAX_FILES,
    if liveIdx fs i = true then (inoAt fs i).num_blocks else 0

/-- States reachable from a fresh `fs_create()` by any sequence of the four
mutating entry points, with arbitrary arguments, successful or failed.
`fs_read` does not modify the filesystem and needs no step. -/
inductive Reachable : Filesystem → Prop
  | init : Reachable fs_create
  | create (fs : Filesystem) (filename : List Char) :
      Reachable fs → Reachable (fs_create_file fs filename).snd
  | write (fs : Filesystem) (filename : List Char) (data : List Nat) :
      Reachable fs → Reachable (fs_write fs filename data).snd
  | delete (fs : Filesystem) (filename : List Char) :
      Reachable fs → Reachable (fs_delete fs filename).snd

/-! ### Basic list lemmas -/

theorem getD_set_self {α : Type} (l : List α) (i : Nat) (v d : α)
    (h : i < l.length) : (l.set i v).getD i d = v := by
  induction l generalizing i with
  | nil => simp at h
  | cons a t ih =>
      cases i with
      | zero => rfl
      | succ n => simpa using ih n (by simpa using h)

theorem getD_set_ne {α : Type} (l : List α) (i j : Nat) (v d : α)
    (h : i ≠ j) : (l.set i v).getD j d = l.getD j d := by
  induction l generalizing i j with
  | nil => simp
  | cons a t ih =>
      cases i with
      | zero =>
          cases j with
          | zero => exact absurd rfl h
          | succ m => simp
      | succ n =>
          cases j with
          | zero => simp
          | succ m => simpa using ih n m (by omega)

theorem getD_replicate {α : Type} (n i : Nat) (a d : α) :
    (List.replicate n a).getD i d = if i < n then a else d := by
  by_cases h : i < n <;>
    simp [List.getD_eq_getElem?_getD, List.getElem?_replicate, h]

theorem getD_mem {α : Type} (l : List α) (i : Nat) (d : α)
    (h : i < l.length) : l.getD i d ∈ l := by
  induction l generalizing i with
  | nil => simp at h
  | cons a t ih =>
      cases i with
      | zero => simp
      | succ n => exact List.mem_cons_of_mem a (ih n (by simpa using h))

theorem getD_eq_default {α : Type} (l : List α) (i : Nat) (d : α)
    (h : l.length ≤ i) : l.getD i d = d := by
  induction l generalizing i with
  | nil => simp
  | cons a t ih =>
      cases i with
      | zero => simp at h
      | succ n => simpa using ih n (by simpa using h)

/-! ### countFalse lemmas -/

theorem countFalse_le_length (l : List Bool) : countFalse l ≤ l.length := by
  induction l with
  | nil => simp [countFalse]
  | cons b t ih =>
      cases b <;> simp [countFalse] <;> omega

theorem countFalse_set_true (l : List Bool) (i : Nat)
    (hi : i < l.length) (hf : l.getD i false = false) :
    countFalse l = countFalse (l.set i true) + 1 := by
  induction l generalizing i with
  | nil => simp at hi
  | cons b t ih =>
      cases i with
      | zero =>
          have hb : b = false := by simpa using hf
          subst hb
          simp [countFalse]
      | succ n =>
          have h2 := ih n (by simpa using hi) (by simpa using hf)
          cases b <;> simp only [List.set_cons_succ, countFalse] <;> omega

theorem countFalse_set_false (l : List Bool) (i : Nat)
    (hi : i < l.length) (ht : l.getD i false = true) :
    countFalse (l.set i false) = countFalse l + 1 := by
  induction l generalizing i with
  | nil => simp at hi
  | cons b t ih =>
      cases i with
      | zero =>
          have hb : b = true := by simpa using ht
          subst hb
          simp [countFalse]
      | succ n =>
          have h2 := ih n (by simpa using hi) (by simpa using ht)
          cases b <;> simp only [List.set_cons_succ, countFalse] <;> omega

theorem countFalse_eq_zero_iff (l : List Bool) :
    countFalse l = 0 ↔ ∀ i, i < l.length → l.getD i false = true := by
  induction l with
  | nil => simp [countFalse]
  | cons b t ih =>
      cases b with
      | false =>
          simp only [countFalse]
          constructor
          · intro h
            exact absurd h (by omega)
          · intro h
            have h0 := h 0 (by simp)
            simp at h0
      | true =>
          simp only [countFalse, ih]
          constructor
          · intro h i hi
            cases i with
            | zero => simp
            | succ n =>
                rw [List.getD_cons_succ]
                exact h n (by simpa using hi)
          · intro h i hi
            have h2 := h (i + 1) (by simpa using hi)
            rwa [List.getD_cons_succ] at h2

theorem countFalse_replicate (n : Nat) :
    countFalse (List.replicate n false) = n := by
  induction n with
  | zero => rfl
  | succ m ih => simp [List.replicate_succ, countFalse, ih]

theorem countFalse_pos_getD (l : List Bool) (i : Nat)
    (hi : i < l.length) (hf : l.getD i false = false) :
    1 ≤ countFalse l := by
  have := countFalse_set_true l i hi hf
  omega

/-! ### writeBytes lemmas -/

theorem writeBytes_length (src : List Nat) (dst : List Nat) (off : Nat) :
    (writeBytes dst off src).length = dst.length := by
  induction src generalizing dst off with
  | nil => rfl
  | cons b bs ih => simp [writeBytes, ih]

/-! ### firstFreeAux lemmas -/

theorem firstFreeAux_eq_none_iff (l : List Bool) :
    firstFreeAux l = none ↔ countFalse l = 0 := by
  induction l with
  | nil => simp [firstFreeAux, countFalse]
  | cons b t ih =>
      cases b with
      | false => simp [firstFreeAux, countFalse]
      | true => simpa [firstFreeAux, countFalse] using ih

theorem firstFreeAux_some (l : List Bool) (i : Nat)
    (h : firstFreeAux l = some i) :
    i < l.length ∧ l.getD i false = false ∧ ∀ j, j < i → l.getD j false = true := by
  induction l generalizing i with
  | nil => simp [firstFreeAux] at h
  | cons b t ih =>
      cases b with
      | false =>
          simp only [firstFreeAux, Option.some.injEq] at h
          subst h
          refine ⟨by simp, rfl, ?_⟩
          intro j hj
          exact absurd hj (Nat.not_lt_zero j)
      | true =>
          simp only [firstFreeAux] at h
          cases hmap : firstFreeAux t with
          | none => rw [hmap] at h; simp at h
          | some i' =>
              rw [hmap] at h
              simp only [Option.map_some', Option.some.injEq] at h
              subst h
              obtain ⟨h1, h2, h3⟩ := ih i' hmap
              refine ⟨by simpa using h1, by simpa using h2, ?_⟩
              intro j hj
              cases j with
              | zero => simp
              | succ m =>
                  rw [List.getD_cons_succ]
                  exact h3 m (by omega)

/-! ### Name lookup lemmas -/

theorem findFrom_some (fs : Filesystem) (nm : List Char) (js : List Nat) (i : Nat)
    (h : findFrom fs nm js = some i) :
    i ∈ js ∧ liveIdx fs i = true ∧ (inoAt fs i).name = nm := by
  induction js with
  | nil => simp [findFrom] at h
  | cons j rest ih =>
      by_cases hc : fs.inode_map.getD j false = true ∧ (inoAt fs j).name = nm
      · rw [findFrom, if_pos hc] at h
        obtain rfl : j = i := by simpa using h
        exact ⟨by simp, hc.1, hc.2⟩
      · rw [findFrom, if_neg hc] at h
        obtain ⟨h1, h2, h3⟩ := ih h
        exact ⟨List.mem_cons_of_mem j h1, h2, h3⟩

theorem findFrom_none_iff (fs : Filesystem) (nm : List Char) (js : List Nat) :
    findFrom fs nm js = none ↔
      ∀ i ∈ js, ¬(liveIdx fs i = true ∧ (inoAt fs i).name = nm) := by
  induction js with
  | nil => simp [findFrom]
  | cons j rest ih =>
      by_cases hc : fs.inode_map.getD j false = true ∧ (inoAt fs j).name = nm
      · rw [findFrom, if_pos hc]
        simp only [List.mem_cons]
        constructor
        · intro h; exact absurd h (by simp)
        · intro h
          exact absurd hc (h j (Or.inl rfl))
      · rw [findFrom, if_neg hc]
        rw [ih]
        constructor
        · intro h i hi
          rcases List.mem_cons.mp hi with rfl | hmem
          · exact hc
          · exact h i hmem
        · intro h i hi
          exact h i (List.mem_cons_of_mem j hi)

theorem findInode_some (fs : Filesystem) (nm : List Char) (i : Nat)
    (h : findInode fs nm = some i) :
    i < fs.total_inodes ∧ liveIdx fs i = true ∧ (inoAt fs i).name = nm := by
  obtain ⟨h1, h2, h3⟩ := findFrom_some fs nm _ i h
  exact ⟨List.mem_range.mp h1, h2, h3⟩

theorem findInode_none_iff (fs : Filesystem) (nm : List Char) :
    findInode fs nm = none ↔
      ∀ i, i < fs.total_inodes →
        ¬(liveIdx fs i = true ∧ (inoAt fs i).name = nm) := by
  rw [findInode, findFrom_none_iff]
  constructor
  · intro h i hi
    exact h i (List.mem_range.mpr hi)
  · intro h i hi
    exact h i (List.mem_range.mp hi)

/-! ### find_free_block / find_free_inode characterization -/

theorem find_free_block_none_iff (fs : Filesystem)
    (hlen : fs.block_map.length = fs.total_blocks) :
    (find_free_block fs).fst = none ↔ countFalse fs.block_map = 0 := by
  have htake : fs.block_map.take fs.total_blocks = fs.block_map := by
    rw [← hlen]; exact List.take_length fs.block_map
  rw [find_free_block, htake]
  cases hx : firstFreeAux fs.block_map with
  | none => simpa using (firstFreeAux_eq_none_iff fs.block_map).mp hx
  | some b =>
      simp only
      constructor
      · intro h; simp at h
      · intro h
        rw [(firstFreeAux_eq_none_iff fs.block_map).mpr h] at hx
        simp at hx

theorem find_free_block_none_state (fs : Filesystem)
    (h : (find_free_block fs).fst = none) : (find_free_block fs).snd = fs := by
  rw [find_free_block] at h ⊢
  cases hx : firstFreeAux (fs.block_map.take fs.total_blocks) with
  | none => rfl
  | some b => rw [hx] at h; simp at h

theorem find_free_block_some (fs : Filesystem) (b : Nat)
    (hlen : fs.block_map.length = fs.total_blocks)
    (h : (find_free_block fs).fst = some b) :
    b < fs.block_map.length ∧ fs.block_map.getD b false = false ∧
    (∀ j, j < b → fs.block_map.getD j false = true) ∧
    (find_free_block fs).snd =
      { fs with block_map := fs.block_map.set b true
                free_blocks := fs.free_blocks - 1 } := by
  have htake : fs.block_map.take fs.total_blocks = fs.block_map := by
    rw [← hlen]; exact List.take_length fs.block_map
  rw [find_free_block, htake] at h ⊢
  cases hx : firstFreeAux fs.block_map with
  | none => rw [hx] at h; simp at h
  | some b' =>
      rw [hx] at h
      have hb : b' = b := by simpa using h
      subst hb
      obtain ⟨h1, h2, h3⟩ := firstFreeAux_some fs.block_map b' hx
      exact ⟨h1, h2, h3, rfl⟩

theorem find_free_inode_none_iff (fs : Filesystem)
    (hlen : fs.inode_map.length = fs.total_inodes) :
    (find_free_inode fs).fst = none ↔ countFalse fs.inode_map = 0 := by
  have htake : fs.inode_map.take fs.total_inodes = fs.inode_map := by
    rw [← hlen]; exact List.take_length fs.inode_map
  rw [find_free_inode, htake]
  cases hx : firstFreeAux fs.inode_map with
  | none => simpa using (firstFreeAux_eq_none_iff fs.inode_map).mp hx
  | some b =>
      simp only
      constructor
      · intro h; simp at h
      · intro h
        rw [(firstFreeAux_eq_none_iff fs.inode_map).mpr h] at hx
        simp at hx

theorem find_free_inode_none_state (fs : Filesystem)
    (h : (find_free_inode fs).fst = none) : (find_free_inode fs).snd = fs := by
  rw [find_free_inode] at h ⊢
  cases hx : firstFreeAux (fs.inode_map.take fs.total_inodes) with
  | none => rfl
  | some b => rw [hx] at h; simp at h

theorem find_free_inode_some (fs : Filesystem) (i : Nat)
    (hlen : fs.inode_map.length = fs.total_inodes)
    (h : (find_free_inode fs).fst = some i) :
    i < fs.inode_map.length ∧ fs.inode_map.getD i false = false ∧
    (∀ j, j < i → fs.inode_map.getD j false = true) ∧
    (find_free_inode fs).snd =
      { fs with inode_map := fs.inode_map.set i true
                free_inodes := fs.free_inodes - 1 } := by
  have htake : fs.inode_map.take fs.total_inodes = fs.inode_map := by
    rw [← hlen]; exact List.take_length fs.inode_map
  rw [find_free_inode, htake] at h ⊢
  cases hx : firstFreeAux fs.inode_map with
  | none => rw [hx] at h; simp at h
  | some i' =>
      rw [hx] at h
      have hb : i' = i := by simpa using h
      subst hb
      obtain ⟨h1, h2, h3⟩ := firstFreeAux_some fs.inode_map i' hx
      exact ⟨h1, h2, h3, rfl⟩

theorem getD_set_self_false (l : List Bool) (i : Nat) :
    (l.set i false).getD i false = false := by
  by_cases h : i < l.length
  · exact getD_set_self l i false false h
  · rw [List.set_eq_of_length_le (by omega)]
    exact getD_eq_default l i false (by omega)

/-! ### freeLoop lemmas -/

theorem freeLoop_unchanged (ino : Inode) (js : List Nat) (fs : Filesystem) :
    (freeLoop ino fs js).total_blocks = fs.total_blocks ∧
    (freeLoop ino fs js).total_inodes = fs.total_inodes ∧
    (freeLoop ino fs js).free_inodes = fs.free_inodes ∧
    (freeLoop ino fs js).inode_map = fs.inode_map ∧
    (freeLoop ino fs js).inodes = fs.inodes ∧
    (freeLoop ino fs js).blocks = fs.blocks ∧
    (freeLoop ino fs js).block_map.length = fs.block_map.length := by
  induction js generalizing fs with
  | nil => exact ⟨rfl, rfl, rfl, rfl, rfl, rfl, rfl⟩
  | cons j rest ih =>
      have h := ih { fs with
        block_map := fs.block_map.set (ino.blocks.getD j 0) false,
        free_blocks := fs.free_blocks + 1 }
      simpa [freeLoop, List.length_set] using h

theorem freeLoop_free_blocks (ino : Inode) (js : List Nat) (fs : Filesystem) :
    (freeLoop ino fs js).free_blocks = fs.free_blocks + js.length := by
  induction js generalizing fs with
  | nil => rfl
  | cons j rest ih =>
      have h := ih { fs with
        block_map := fs.block_map.set (ino.blocks.getD j 0) false,
        free_blocks := fs.free_blocks + 1 }
      simp only [freeLoop] at *
      rw [h]
      simp
      omega

theorem freeLoop_map_false_mono (ino : Inode) (js : List Nat) (fs : Filesystem)
    (b : Nat) (h : fs.block_map.getD b false = false) :
    (freeLoop ino fs js).block_map.getD b false = false := by
  induction js generalizing fs with
  | nil => exact h
  | cons j rest ih =>
      rw [freeLoop]
      apply ih
      by_cases hb : ino.blocks.getD j 0 = b
      · subst hb
        exact getD_set_self_false _ _
      · show (fs.block_map.set (ino.blocks.getD j 0) false).getD b false = false
        rw [getD_set_ne _ _ _ _ _ hb]
        exact h

theorem freeLoop_map_mem (ino : Inode) (js : List Nat) (fs : Filesystem)
    (b : Nat) (h : ∃ j ∈ js, ino.blocks.getD j 0 = b) :
    (freeLoop ino fs js).block_map.getD b false = false := by
  induction js generalizing fs with
  | nil => simp at h
  | cons j rest ih =>
      rw [freeLoop]
      obtain ⟨j', hj', he⟩ := h
      rcases List.mem_cons.mp hj' with rfl | hmem
      · apply freeLoop_map_false_mono
        rw [← he]
        exact getD_set_self_false _ _
      · exact ih _ ⟨j', hmem, he⟩

theorem freeLoop_map_not_mem (ino : Inode) (js : List Nat) (fs : Filesystem)
    (b : Nat) (h : ∀ j ∈ js, ino.blocks.getD j 0 ≠ b) :
    (freeLoop ino fs js).block_map.getD b false = fs.block_map.getD b false := by
  induction js generalizing fs with
  | nil => rfl
  | cons j rest ih =>
      rw [freeLoop]
      rw [ih _ (fun j' hj' => h j' (List.mem_cons_of_mem j hj'))]
      exact getD_set_ne _ _ _ _ _ (h j (by simp))

theorem freeLoop_count (ino : Inode) (js : List Nat) (fs : Filesystem)
    (hval : ∀ j ∈ js, ino.blocks.getD j 0 < fs.block_map.length ∧
      fs.block_map.getD (ino.blocks.getD j 0) false = true)
    (hpair : js.Pairwise fun a c => ino.blocks.getD a 0 ≠ ino.blocks.getD c 0) :
    countFalse (freeLoop ino fs js).block_map =
      countFalse fs.block_map + js.length := by
  induction js generalizing fs with
  | nil => rfl
  | cons j rest ih =>
      rw [freeLoop]
      obtain ⟨hlt, htrue⟩ := hval j (by simp)
      rw [ih]
      · simp only [List.length_set]
        rw [countFalse_set_false fs.block_map _ hlt htrue]
        simp [List.length_cons]
        omega
      · intro j' hj'
        obtain ⟨h1, h2⟩ := hval j' (List.mem_cons_of_mem j hj')
        have hne : ino.blocks.getD j 0 ≠ ino.blocks.getD j' 0 :=
          (List.pairwise_cons.mp hpair).1 j' hj'
        refine ⟨by simpa [List.length_set] using h1, ?_⟩
        simp only
        rw [getD_set_ne _ _ _ _ _ hne]
        exact h2
      · exact hpair.of_cons

/-! ### updInode lemmas -/

theorem updInode_fields (fs : Filesystem) (i : Nat) (f : Inode → Inode) :
    (updInode fs i f).total_blocks = fs.total_blocks ∧
    (updInode fs i f).free_blocks = fs.free_blocks ∧
    (updInode fs i f).total_inodes = fs.total_inodes ∧
    (updInode fs i f).free_inodes = fs.free_inodes ∧
    (updInode fs i f).blocks = fs.blocks ∧
    (updInode fs i f).block_map = fs.block_map ∧
    (updInode fs i f).inode_map = fs.inode_map ∧
    (updInode fs i f).inodes.length = fs.inodes.length := by
  exact ⟨rfl, rfl, rfl, rfl, rfl, rfl, rfl, List.length_set fs.inodes i _⟩

theorem inoAt_updInode_self (fs : Filesystem) (i : Nat) (f : Inode → Inode)
    (h : i < fs.inodes.length) : inoAt (updInode fs i f) i = f (inoAt fs i) := by
  unfold inoAt updInode
  exact getD_set_self fs.inodes i _ zeroInode h

theorem inoAt_updInode_ne (fs : Filesystem) (i j : Nat) (f : Inode → Inode)
    (h : i ≠ j) : inoAt (updInode fs i f) j = inoAt fs j := by
  unfold inoAt updInode
  exact getD_set_ne fs.inodes i j _ zeroInode h

/-! ### writeLoop specification -/

/-- Everything the allocation loop of `fs_write` does, starting at loop
index `i` with `k` iterations left: `alloc` is the list of blocks it
allocates (all of them free beforehand, pairwise distinct, first-fit), the
loop succeeds iff enough free blocks remain, the block map gains exactly
the entries of `alloc`, every other field and every other inode is
untouched, and the target inode's block array receives `alloc` at the
positions `i, i+1, ...` while all other positions keep their values. -/
structure WLOut (fs : Filesystem) (inum i k : Nat)
    (res : Bool × Filesystem) (alloc : List Nat) : Prop where
  alen : alloc.length = min k (countFalse fs.block_map)
  adist : ∀ p q, p < alloc.length → q < alloc.length → p ≠ q →
    alloc.getD p 0 ≠ alloc.getD q 0
  afree : ∀ b ∈ alloc, b < fs.block_map.length ∧ fs.block_map.getD b false = false
  ok_iff : res.fst = true ↔ k ≤ countFalse fs.block_map
  map_len : res.snd.block_map.length = fs.block_map.length
  map_getD : ∀ b, res.snd.block_map.getD b false =
    (if b ∈ alloc then true else fs.block_map.getD b false)
  count : countFalse res.snd.block_map = countFalse fs.block_map - alloc.length
  free : res.snd.free_blocks = fs.free_blocks - alloc.length
  tb : res.snd.total_blocks = fs.total_blocks
  ti : res.snd.total_inodes = fs.total_inodes
  imap : res.snd.inode_map = fs.inode_map
  fi : res.snd.free_inodes = fs.free_inodes
  blocks_len : res.snd.blocks.length = fs.blocks.length
  blocks_sz : (∀ bl ∈ fs.blocks, bl.length = BLOCK_SIZE) →
    ∀ bl ∈ res.snd.blocks, bl.length = BLOCK_SIZE
  inodes_len : res.snd.inodes.length = fs.inodes.length
  others : ∀ i', i' ≠ inum →
    res.snd.inodes.getD i' zeroInode = fs.inodes.getD i' zeroInode
  t_name : (inoAt res.snd inum).name = (inoAt fs inum).name
  t_size : (inoAt res.snd inum).size = (inoAt fs inum).size
  t_nb : (inoAt res.snd inum).num_blocks = (inoAt fs inum).num_blocks
  t_dir : (inoAt res.snd inum).is_directory = (inoAt fs inum).is_directory
  t_blen : (inoAt res.snd inum).blocks.length = (inoAt fs inum).blocks.length
  t_out : ∀ p, p < i ∨ i + alloc.length ≤ p →
    (inoAt res.snd inum).blocks.getD p 0 = (inoAt fs inum).blocks.getD p 0
  t_in : ∀ p, p < alloc.length →
    (inoAt res.snd inum).blocks.getD (i + p) 0 = alloc.getD p 0

theorem writeLoop_spec (inum : Nat) (data : List Nat) (needed : Nat) :
    ∀ (k i : Nat) (fs : Filesystem),
      fs.block_map.length = fs.total_blocks →
      fs.blocks.length = fs.block_map.length →
      inum < fs.inodes.length →
      i + k ≤ (inoAt fs inum).blocks.length →
      ∃ alloc, WLOut fs inum i k
        (writeLoop inum data needed fs (List.range' i k)) alloc := by
  intro k
  induction k with
  | zero =>
      intro i fs h1 h2 h3 h4
      refine ⟨[], ?_⟩
      rw [List.range'_zero]
      constructor <;>
        simp [writeLoop]
  | succ k ih =>
      intro i fs h1 h2 h3 h4
      rw [List.range'_succ]
      rcases hfb : find_free_block fs with ⟨o, fs1⟩
      cases o with
      | none =>
          have hfst : (find_free_block fs).fst = none := by rw [hfb]
          have hc0 : countFalse fs.block_map = 0 :=
            (find_free_block_none_iff fs h1).mp hfst
          have hstate : fs1 = fs := by
            have h := find_free_block_none_state fs hfst
            rw [hfb] at h
            exact h
          refine ⟨[], ?_⟩
          have hred : writeLoop inum data needed fs (i :: List.range' (i + 1) k) =
              (false, fs) := by
            rw [writeLoop, hfb, hstate]
          rw [hred]
          constructor <;> simp [hc0]
      | some b =>
          have hfst : (find_free_block fs).fst = some b := by rw [hfb]
          obtain ⟨hb_lt, hb_free, _hb_min, hsnd⟩ := find_free_block_some fs b h1 hfst
          have hfs1 : fs1 = { fs with block_map := fs.block_map.set b true,
                                      free_blocks := fs.free_blocks - 1 } := by
            have := hsnd
            rw [hfb] at this
            exact this
          subst hfs1
          have hc1 : 1 ≤ countFalse fs.block_map :=
            countFalse_pos_getD fs.block_map b hb_lt hb_free
          have hcset : countFalse fs.block_map =
              countFalse (fs.block_map.set b true) + 1 :=
            countFalse_set_true fs.block_map b hb_lt hb_free
          set fs1 : Filesystem := { fs with block_map := fs.block_map.set b true,
                                            free_blocks := fs.free_blocks - 1 } with hfs1def
          set fs2 : Filesystem :=
            updInode fs1 inum (fun ino => { ino with blocks := ino.blocks.set i b })
            with hfs2def
          set fs3 : Filesystem :=
            { fs2 with blocks :=
                fs2.blocks.set b (writeBytes (fs2.blocks.getD b []) 0
                  ((data.drop (i * BLOCK_SIZE)).take
                    (if i = needed - 1 then data.length % BLOCK_SIZE else BLOCK_SIZE))) }
            with hfs3def
          have hred : writeLoop inum data needed fs (i :: List.range' (i + 1) k) =
              writeLoop inum data needed fs3 (List.range' (i + 1) k) := by
            rw [writeLoop, hfb]
          rw [hred]
          -- facts about the one-step states
          have hino1 : inoAt fs1 inum = inoAt fs inum := rfl
          have hilen : i < (inoAt fs inum).blocks.length := by omega
          have hino2 : inoAt fs2 inum =
              { inoAt fs inum with blocks := (inoAt fs inum).blocks.set i b } := by
            rw [hfs2def]
            exact inoAt_updInode_self fs1 inum _ h3
          have hino3 : inoAt fs3 inum = inoAt fs2 inum := rfl
          have hmap3 : fs3.block_map = fs.block_map.set b true := rfl
          have himap3 : fs3.inode_map = fs.inode_map := rfl
          have htb3 : fs3.total_blocks = fs.total_blocks := rfl
          have hti3 : fs3.total_inodes = fs.total_inodes := rfl
          have hfi3 : fs3.free_inodes = fs.free_inodes := rfl
          have hfree3 : fs3.free_blocks = fs.free_blocks - 1 := rfl
          have hblen3 : fs3.blocks.length = fs.blocks.length := by
            rw [hfs3def]
            simp only [List.length_set]
            rfl
          have hinodes3 : fs3.inodes = fs2.inodes := rfl
          have hinlen3 : fs3.inodes.length = fs.inodes.length := by
            rw [hinodes3, hfs2def]
            exact (updInode_fields fs1 inum _).2.2.2.2.2.2.2
          -- apply the induction hypothesis to fs3
          obtain ⟨restAlloc, IH⟩ := ih (i + 1) fs3
            (by rw [hmap3, htb3, List.length_set]; exact h1)
            (by rw [hblen3, hmap3, List.length_set]; exact h2)
            (by rw [hinlen3]; exact h3)
            (by rw [hino3, hino2]
                simp only [List.length_set]
                omega)
          have hcfs3 : countFalse fs3.block_map = countFalse fs.block_map - 1 := by
            rw [hmap3]
            omega
          refine ⟨b :: restAlloc, ?_⟩
          have hrlen : restAlloc.length = min k (countFalse fs.block_map - 1) := by
            have := IH.alen
            rw [hcfs3] at this
            exact this
          -- membership facts needed repeatedly
          have hrest_free : ∀ x ∈ restAlloc,
              x < fs.block_map.length ∧ fs.block_map.getD x false = false := by
            intro x hx
            obtain ⟨hx1, hx2⟩ := IH.afree x hx
            rw [hmap3, List.length_set] at hx1
            rw [hmap3] at hx2
            by_cases hxb : x = b
            · subst hxb
              rw [getD_set_self fs.block_map x true false hb_lt] at hx2
              simp at hx2
            · rw [getD_set_ne fs.block_map b x true false (fun hh => hxb hh.symm)] at hx2
              exact ⟨hx1, hx2⟩
          have hb_notin : b ∉ restAlloc := by
            intro hmem
            have hx2 := (IH.afree b hmem).2
            rw [hmap3, getD_set_self fs.block_map b true false hb_lt] at hx2
            exact absurd hx2 (by simp)
          constructor
          case alen =>
            simp only [List.length_cons, hrlen]
            omega
          case adist =>
            intro p q hp hq hpq
            simp only [List.length_cons] at hp hq
            cases p with
            | zero =>
                cases q with
                | zero => exact absurd rfl hpq
                | succ q' =>
                    simp only [List.getD_cons_zero, List.getD_cons_succ]
                    intro hbe
                    have hmem : restAlloc.getD q' 0 ∈ restAlloc :=
                      getD_mem restAlloc q' 0 (by omega)
                    rw [← hbe] at hmem
                    exact hb_notin hmem
            | succ p' =>
                cases q with
                | zero =>
                    simp only [List.getD_cons_zero, List.getD_cons_succ]
                    intro hbe
                    have hmem : restAlloc.getD p' 0 ∈ restAlloc :=
                      getD_mem restAlloc p' 0 (by omega)
                    rw [hbe] at hmem
                    exact hb_notin hmem
                | succ q' =>
                    simp only [List.getD_cons_succ]
                    exact IH.adist p' q' (by omega) (by omega) (by omega)
          case afree =>
            intro x hx
            rcases List.mem_cons.mp hx with rfl | hmem
            · exact ⟨hb_lt, hb_free⟩
            · exact hrest_free x hmem
          case ok_iff =>
            rw [IH.ok_iff, hcfs3]
            omega
          case map_len =>
            rw [IH.map_len, hmap3, List.length_set]
          case map_getD =>
            intro x
            rw [IH.map_getD x]
            by_cases hmem : x ∈ restAlloc
            · rw [if_pos hmem, if_pos (List.mem_cons_of_mem b hmem)]
            · rw [if_neg hmem, hmap3]
              by_cases hxb : x = b
              · subst hxb
                rw [if_pos (by simp)]
                exact getD_set_self fs.block_map x true false hb_lt
              · rw [if_neg (by simp [hxb, hmem])]
                exact getD_set_ne fs.block_map b x true false (fun hh => hxb hh.symm)
          case count =>
            rw [IH.count, hcfs3]
            simp only [List.length_cons]
            omega
          case free =>
            rw [IH.free, hfree3]
            simp only [List.length_cons]
            omega
          case tb => rw [IH.tb, htb3]
          case ti => rw [IH.ti, hti3]
          case imap => rw [IH.imap, himap3]
          case fi => rw [IH.fi, hfi3]
          case blocks_len => rw [IH.blocks_len, hblen3]
          case blocks_sz =>
            intro hsz bl hbl
            apply IH.blocks_sz _ bl hbl
            intro bl2 hbl2
            rcases List.mem_or_eq_of_mem_set hbl2 with hmem | rfl
            · exact hsz bl2 hmem
            · rw [writeBytes_length]
              have hbblocks : fs2.blocks.getD b [] ∈ fs.blocks := by
                have : fs2.blocks = fs.blocks := rfl
                rw [this]
                exact getD_mem fs.blocks b [] (by omega)
              exact hsz _ hbblocks
          case inodes_len => rw [IH.inodes_len, hinlen3]
          case others =>
            intro i' hi'
            rw [IH.others i' hi']
            show fs2.inodes.getD i' zeroInode = fs.inodes.getD i' zeroInode
            rw [hfs2def]
            unfold updInode
            exact getD_set_ne fs1.inodes inum i' _ zeroInode (fun hh => hi' hh.symm)
          case t_name =>
            rw [IH.t_name, hino3, hino2]
          case t_size =>
            rw [IH.t_size, hino3, hino2]
          case t_nb =>
            rw [IH.t_nb, hino3, hino2]
          case t_dir =>
            rw [IH.t_dir, hino3, hino2]
          case t_blen =>
            rw [IH.t_blen, hino3, hino2]
            simp [List.length_set]
          case t_out =>
            intro p hp
            simp only [List.length_cons] at hp
            have hp' : p < i + 1 ∨ (i + 1) + restAlloc.length ≤ p := by omega
            rw [IH.t_out p hp', hino3, hino2]
            simp only
            exact getD_set_ne _ i p b 0 (by omega)
          case t_in =>
            intro p hp
            simp only [List.length_cons] at hp
            cases p with
            | zero =>
                have h0 : i + 0 < i + 1 ∨ (i + 1) + restAlloc.length ≤ i + 0 := by omega
                rw [IH.t_out (i + 0) h0, hino3, hino2]
                simp only [List.getD_cons_zero, Nat.add_zero]
                exact getD_set_self _ i b 0 hilen
            | succ p' =>
                have : i + (p' + 1) = (i + 1) + p' := by omega
                rw [this, IH.t_in p' (by omega)]
                simp

/-! ### The reachable-state invariant -/

/-- The inductive invariant of the file system, proved below to hold in
every reachable state: structural sizes, the two free-count bookkeeping
equations, and the per-inode block-ownership discipline (valid, currently
allocated, duplicate-free and cross-inode disjoint active block lists,
bounded `num_blocks`, short unique names). -/
structure Good (fs : Filesystem) : Prop where
  tb : fs.total_blocks = MAX_BLOCKS
  ti : fs.total_inodes = MAX_FILES
  bm_len : fs.block_map.length = MAX_BLOCKS
  im_len : fs.inode_map.length = MAX_FILES
  blocks_len : fs.blocks.length = MAX_BLOCKS
  inodes_len : fs.inodes.length = MAX_FILES
  blocks_sz : ∀ bl ∈ fs.blocks, bl.length = BLOCK_SIZE
  ino_blen : ∀ i, (inoAt fs i).blocks.length = MAX_BLOCKS
  fb : fs.free_blocks = countFalse fs.block_map
  fi : fs.free_inodes = countFalse fs.inode_map
  live_nb : ∀ i, liveIdx fs i = true → (inoAt fs i).num_blocks ≤ MAX_BLOCKS
  live_name : ∀ i, liveIdx fs i = true → (inoAt fs i).name.length < MAX_FILENAME
  live_valid : ∀ i, liveIdx fs i = true → ∀ j, j < (inoAt fs i).num_blocks →
    (inoAt fs i).blocks.getD j 0 < MAX_BLOCKS ∧
    fs.block_map.getD ((inoAt fs i).blocks.getD j 0) false = true
  live_distinct : ∀ i, liveIdx fs i = true → ∀ j1 j2,
    j1 < (inoAt fs i).num_blocks → j2 < (inoAt fs i).num_blocks → j1 ≠ j2 →
    (inoAt fs i).blocks.getD j1 0 ≠ (inoAt fs i).blocks.getD j2 0
  live_disjoint : ∀ i1 i2, liveIdx fs i1 = true → liveIdx fs i2 = true → i1 ≠ i2 →
    ∀ j1 j2, j1 < (inoAt fs i1).num_blocks → j2 < (inoAt fs i2).num_blocks →
    (inoAt fs i1).blocks.getD j1 0 ≠ (inoAt fs i2).blocks.getD j2 0
  names_uniq : ∀ i1 i2, liveIdx fs i1 = true → liveIdx fs i2 = true → i1 ≠ i2 →
    (inoAt fs i1).name ≠ (inoAt fs i2).name

theorem Good.live_lt {fs : Filesystem} (hg : Good fs) (i : Nat)
    (h : liveIdx fs i = true) : i < MAX_FILES := by
  by_contra hge
  have hlen : fs.inode_map.length ≤ i := by
    rw [hg.im_len]
    omega
  rw [liveIdx, getD_eq_default fs.inode_map i false hlen] at h
  simp at h

theorem zeroInode_blen : zeroInode.blocks.length = MAX_BLOCKS := by
  simp [zeroInode]

theorem liveIdx_fs_create (i : Nat) : liveIdx fs_create i = false := by
  rw [liveIdx]
  show (List.replicate MAX_FILES false).getD i false = false
  rw [getD_replicate]
  split <;> rfl

theorem good_init : Good fs_create := by
  refine ⟨rfl, rfl, by simp [fs_create, MAX_BLOCKS], by simp [fs_create],
    by simp [fs_create, MAX_BLOCKS], by simp [fs_create], ?_, ?_, ?_, ?_, ?_, ?_, ?_, ?_, ?_, ?_⟩
  · intro bl hbl
    rw [List.eq_of_mem_replicate hbl]
    simp
  · intro i
    show ((List.replicate MAX_FILES zeroInode).getD i zeroInode).blocks.length = MAX_BLOCKS
    rw [getD_replicate]
    split <;> exact zeroInode_blen
  · show MAX_FILE_SIZE / BLOCK_SIZE = countFalse (List.replicate (MAX_FILE_SIZE / BLOCK_SIZE) false)
    rw [countFalse_replicate]
  · show MAX_FILES = countFalse (List.replicate MAX_FILES false)
    rw [countFalse_replicate]
  · intro i h
    rw [liveIdx_fs_create i] at h
    exact absurd h (by simp)
  · intro i h
    rw [liveIdx_fs_create i] at h
    exact absurd h (by simp)
  · intro i h
    rw [liveIdx_fs_create i] at h
    exact absurd h (by simp)
  · intro i h
    rw [liveIdx_fs_create i] at h
    exact absurd h (by simp)
  · intro i1 i2 h1
    rw [liveIdx_fs_create i1] at h1
    exact absurd h1 (by simp)
  · intro i1 i2 h1
    rw [liveIdx_fs_create i1] at h1
    exact absurd h1 (by simp)

theorem good_create (fs : Filesystem) (nm : List Char) (hg : Good fs) :
    Good (fs_create_file fs nm).snd := by
  rw [fs_create_file]
  by_cases hlen : MAX_FILENAME ≤ nm.length
  · rw [if_pos hlen]
    exact hg
  · rw [if_neg hlen]
    cases hfind : findInode fs nm with
    | some i => exact hg
    | none =>
        rcases hffi : find_free_inode fs with ⟨o, fs1⟩
        cases o with
        | none =>
            have hfst : (find_free_inode fs).fst = none := by rw [hffi]
            have hstate : fs1 = fs := by
              have h := find_free_inode_none_state fs hfst
              rw [hffi] at h
              exact h
            show Good fs1
            rw [hstate]
            exact hg
        | some inum =>
            have hfst : (find_free_inode fs).fst = some inum := by rw [hffi]
            obtain ⟨hi_lt, hi_free, _hi_min, hsnd⟩ :=
              find_free_inode_some fs inum (hg.im_len.trans hg.ti.symm) hfst
            have hfs1 : fs1 = { fs with inode_map := fs.inode_map.set inum true,
                                        free_inodes := fs.free_inodes - 1 } := by
              have h := hsnd
              rw [hffi] at h
              exact h
            show Good (updInode fs1 inum (fun ino =>
              { ino with name := nm.take (MAX_FILENAME - 1),
                         size := 0, num_blocks := 0, is_directory := false }))
            subst hfs1
            have hinum256 : inum < MAX_FILES := by
              rw [hg.im_len] at hi_lt
              exact hi_lt
            set f : Inode → Inode := fun ino =>
              { ino with name := nm.take (MAX_FILENAME - 1),
                         size := 0, num_blocks := 0, is_directory := false }
              with hfdef
            set fs1 : Filesystem := { fs with inode_map := fs.inode_map.set inum true,
                                              free_inodes := fs.free_inodes - 1 }
              with hfs1def
            set fsr : Filesystem := updInode fs1 inum f with hfsrdef
            have hin1len : fs1.inodes.length = MAX_FILES := hg.inodes_len
            have hino_self : inoAt fsr inum = f (inoAt fs inum) := by
              rw [hfsrdef]
              exact inoAt_updInode_self fs1 inum f (by rw [hin1len]; exact hinum256)
            have hino_ne : ∀ i, i ≠ inum → inoAt fsr i = inoAt fs i := by
              intro i hi
              rw [hfsrdef]
              exact inoAt_updInode_ne fs1 inum i f (fun hh => hi hh.symm)
            have hlive_self : liveIdx fsr inum = true := by
              show (fs.inode_map.set inum true).getD inum false = true
              exact getD_set_self fs.inode_map inum true false hi_lt
            have hlive_ne : ∀ i, i ≠ inum → liveIdx fsr i = liveIdx fs i := by
              intro i hi
              show (fs.inode_map.set inum true).getD i false = fs.inode_map.getD i false
              exact getD_set_ne fs.inode_map inum i true false (fun hh => hi hh.symm)
            have hname_new : (inoAt fsr inum).name = nm := by
              rw [hino_self]
              show nm.take (MAX_FILENAME - 1) = nm
              exact List.take_of_length_le (by unfold MAX_FILENAME at *; omega)
            have hnb_new : (inoAt fsr inum).num_blocks = 0 := by
              rw [hino_self]
            have hnames_old : ∀ i, i < MAX_FILES → liveIdx fs i = true →
                (inoAt fs i).name ≠ nm := by
              intro i hilt hlive heq
              have h := (findInode_none_iff fs nm).mp hfind i (by rw [hg.ti]; exact hilt)
              exact h ⟨hlive, heq⟩
            refine ⟨hg.tb, hg.ti, hg.bm_len, ?_, hg.blocks_len, ?_, hg.blocks_sz,
              ?_, hg.fb, ?_, ?_, ?_, ?_, ?_, ?_, ?_⟩
            · show (fs.inode_map.set inum true).length = MAX_FILES
              rw [List.length_set]
              exact hg.im_len
            · show (fs1.inodes.set inum _).length = MAX_FILES
              rw [List.length_set]
              exact hg.inodes_len
            · intro i
              by_cases hi : i = inum
              · subst hi
                rw [hino_self]
                show (inoAt fs i).blocks.length = MAX_BLOCKS
                exact hg.ino_blen i
              · rw [hino_ne i hi]
                exact hg.ino_blen i
            · show fs.free_inodes - 1 = countFalse (fs.inode_map.set inum true)
              have hcset := countFalse_set_true fs.inode_map inum hi_lt hi_free
              rw [hg.fi]
              omega
            · intro i hlive
              by_cases hi : i = inum
              · subst hi
                rw [hnb_new]
                omega
              · rw [hino_ne i hi]
                exact hg.live_nb i (by rw [← hlive_ne i hi]; exact hlive)
            · intro i hlive
              by_cases hi : i = inum
              · subst hi
                rw [hname_new]
                unfold MAX_FILENAME at *
                omega
              · rw [hino_ne i hi]
                exact hg.live_name i (by rw [← hlive_ne i hi]; exact hlive)
            · intro i hlive j hj
              by_cases hi : i = inum
              · subst hi
                rw [hnb_new] at hj
                exact absurd hj (by omega)
              · rw [hino_ne i hi] at hj ⊢
                have hl := hg.live_valid i (by rw [← hlive_ne i hi]; exact hlive) j hj
                exact hl
            · intro i hlive j1 j2 hj1 hj2 hne
              by_cases hi : i = inum
              · subst hi
                rw [hnb_new] at hj1
                exact absurd hj1 (by omega)
              · rw [hino_ne i hi] at hj1 hj2 ⊢
                exact hg.live_distinct i (by rw [← hlive_ne i hi]; exact hlive) j1 j2 hj1 hj2 hne
            · intro i1 i2 hl1 hl2 hne j1 j2 hj1 hj2
              by_cases hi1 : i1 = inum
              · subst hi1
                rw [hnb_new] at hj1
                exact absurd hj1 (by omega)
              · by_cases hi2 : i2 = inum
                · subst hi2
                  rw [hnb_new] at hj2
                  exact absurd hj2 (by omega)
                · rw [hino_ne i1 hi1] at hj1 ⊢
                  rw [hino_ne i2 hi2] at hj2 ⊢
                  exact hg.live_disjoint i1 i2
                    (by rw [← hlive_ne i1 hi1]; exact hl1)
                    (by rw [← hlive_ne i2 hi2]; exact hl2) hne j1 j2 hj1 hj2
            · intro i1 i2 hl1 hl2 hne
              by_cases hi1 : i1 = inum
              · by_cases hi2 : i2 = inum
                · exact absurd (hi1.trans hi2.symm) hne
                · rw [hi1, hname_new, hino_ne i2 hi2]
                  have hl2f : liveIdx fs i2 = true := by
                    rw [← hlive_ne i2 hi2]
                    exact hl2
                  intro heq
                  exact hnames_old i2 (hg.live_lt i2 hl2f) hl2f heq.symm
              · by_cases hi2 : i2 = inum
                · rw [hi2, hname_new, hino_ne i1 hi1]
                  have hl1f : liveIdx fs i1 = true := by
                    rw [← hlive_ne i1 hi1]
                    exact hl1
                  intro heq
                  exact hnames_old i1 (hg.live_lt i1 hl1f) hl1f heq
                · rw [hino_ne i1 hi1, hino_ne i2 hi2]
                  exact hg.names_uniq i1 i2
                    (by rw [← hlive_ne i1 hi1]; exact hl1)
                    (by rw [← hlive_ne i2 hi2]; exact hl2) hne

/-- The active block list of a live inode is pairwise-distinct as a
`List.Pairwise` statement over `List.range num_blocks`. -/
theorem pairwise_range_ne (m : Nat) (E : Nat → Nat)
    (h : ∀ a b, a < m → b < m → a ≠ b → E a ≠ E b) :
    (List.range m).Pairwise (fun a b => E a ≠ E b) := by
  refine (List.pairwise_lt_range m).imp_of_mem ?_
  intro a b ha hb hab
  exact h a b (List.mem_range.mp ha) (List.mem_range.mp hb) (by omega)

theorem good_delete (fs : Filesystem) (nm : List Char) (hg : Good fs) :
    Good (fs_delete fs nm).snd := by
  rw [fs_delete]
  cases hfind : findInode fs nm with
  | none => exact hg
  | some inum =>
      obtain ⟨hlt, hlive, _hname⟩ := findInode_some fs nm inum hfind
      have hinum256 : inum < MAX_FILES := by
        rw [hg.ti] at hlt
        exact hlt
      have hval : ∀ j ∈ List.range (inoAt fs inum).num_blocks,
          (inoAt fs inum).blocks.getD j 0 < fs.block_map.length ∧
          fs.block_map.getD ((inoAt fs inum).blocks.getD j 0) false = true := by
        intro j hj
        obtain ⟨h1, h2⟩ := hg.live_valid inum hlive j (List.mem_range.mp hj)
        exact ⟨by rw [hg.bm_len]; exact h1, h2⟩
      have hpair : (List.range (inoAt fs inum).num_blocks).Pairwise
          (fun a b => (inoAt fs inum).blocks.getD a 0 ≠ (inoAt fs inum).blocks.getD b 0) :=
        pairwise_range_ne _ _ (hg.live_distinct inum hlive)
      obtain ⟨hu_tb, hu_ti, hu_fi, hu_imap, hu_inodes, hu_blocks, hu_bmlen⟩ :=
        freeLoop_unchanged (inoAt fs inum) (List.range (inoAt fs inum).num_blocks) fs
      have hfree := freeLoop_free_blocks (inoAt fs inum)
        (List.range (inoAt fs inum).num_blocks) fs
      have hcount := freeLoop_count (inoAt fs inum)
        (List.range (inoAt fs inum).num_blocks) fs hval hpair
      set m := (inoAt fs inum).num_blocks with hmdef
      set fs1 := freeLoop (inoAt fs inum) fs (List.range m) with hfs1def
      show Good { fs1 with inode_map := fs1.inode_map.set inum false,
                           free_inodes := fs1.free_inodes + 1,
                           inodes := fs1.inodes.set inum zeroInode }
      set fs2 : Filesystem := { fs1 with inode_map := fs1.inode_map.set inum false,
                                         free_inodes := fs1.free_inodes + 1,
                                         inodes := fs1.inodes.set inum zeroInode }
        with hfs2def
      have him_len : fs.inode_map.length = MAX_FILES := hg.im_len
      have hinolen : fs.inodes.length = MAX_FILES := hg.inodes_len
      have hino2 : ∀ i, i ≠ inum → inoAt fs2 i = inoAt fs i := by
        intro i hi
        show (fs1.inodes.set inum zeroInode).getD i zeroInode = fs.inodes.getD i zeroInode
        rw [getD_set_ne fs1.inodes inum i zeroInode zeroInode (fun hh => hi hh.symm), hu_inodes]
      have hino2self : inoAt fs2 inum = zeroInode := by
        show (fs1.inodes.set inum zeroInode).getD inum zeroInode = zeroInode
        exact getD_set_self fs1.inodes inum zeroInode zeroInode
          (by rw [hu_inodes, hinolen]; exact hinum256)
      have hlive2 : ∀ i, liveIdx fs2 i = true → i ≠ inum ∧ liveIdx fs i = true := by
        intro i h2
        by_cases hi : i = inum
        · subst hi
          rw [liveIdx] at h2
          have : (fs1.inode_map.set i false).getD i false = false :=
            getD_set_self_false fs1.inode_map i
          rw [this] at h2
          exact absurd h2 (by simp)
        · constructor
          · exact hi
          · rw [liveIdx] at h2 ⊢
            rw [show fs2.inode_map = fs1.inode_map.set inum false from rfl] at h2
            rw [getD_set_ne fs1.inode_map inum i false false (fun hh => hi hh.symm), hu_imap] at h2
            exact h2
      have hmap2 : ∀ i, i ≠ inum → liveIdx fs i = true →
          ∀ j, j < (inoAt fs i).num_blocks →
          fs2.block_map.getD ((inoAt fs i).blocks.getD j 0) false = true := by
        intro i hi hlv j hj
        show fs1.block_map.getD ((inoAt fs i).blocks.getD j 0) false = true
        rw [hfs1def, freeLoop_map_not_mem _ _ _ _ ?_]
        · exact (hg.live_valid i hlv j hj).2
        · intro j' hj'
          exact hg.live_disjoint inum i hlive hlv (fun hh => hi hh.symm) j' j
            (List.mem_range.mp hj') hj
      refine ⟨hu_tb.trans hg.tb, hu_ti.trans hg.ti, hu_bmlen.trans hg.bm_len, ?_, ?_, ?_,
        ?_, ?_, ?_, ?_, ?_, ?_, ?_, ?_, ?_, ?_⟩
      · show (fs1.inode_map.set inum false).length = MAX_FILES
        rw [List.length_set, hu_imap]
        exact hg.im_len
      · show fs1.blocks.length = MAX_BLOCKS
        rw [hu_blocks]
        exact hg.blocks_len
      · show (fs1.inodes.set inum zeroInode).length = MAX_FILES
        rw [List.length_set, hu_inodes]
        exact hg.inodes_len
      · show ∀ bl ∈ fs1.blocks, bl.length = BLOCK_SIZE
        rw [hu_blocks]
        exact hg.blocks_sz
      · intro i
        by_cases hi : i = inum
        · subst hi
          rw [hino2self]
          exact zeroInode_blen
        · rw [hino2 i hi]
          exact hg.ino_blen i
      · show fs1.free_blocks = countFalse fs1.block_map
        rw [hfree, hcount, List.length_range, hg.fb]
      · show fs1.free_inodes + 1 = countFalse (fs1.inode_map.set inum false)
        rw [hu_imap, hu_fi]
        rw [countFalse_set_false fs.inode_map inum (by rw [him_len]; exact hinum256) hlive]
        rw [hg.fi]
      · intro i h2
        obtain ⟨hi, hlv⟩ := hlive2 i h2
        rw [hino2 i hi]
        exact hg.live_nb i hlv
      · intro i h2
        obtain ⟨hi, hlv⟩ := hlive2 i h2
        rw [hino2 i hi]
        exact hg.live_name i hlv
      · intro i h2 j hj
        obtain ⟨hi, hlv⟩ := hlive2 i h2
        rw [hino2 i hi] at hj ⊢
        refine ⟨(hg.live_valid i hlv j hj).1, ?_⟩
        exact hmap2 i hi hlv j hj
      · intro i h2 j1 j2 hj1 hj2 hne
        obtain ⟨hi, hlv⟩ := hlive2 i h2
        rw [hino2 i hi] at hj1 hj2 ⊢
        exact hg.live_distinct i hlv j1 j2 hj1 hj2 hne
      · intro i1 i2 h1 h2 hne j1 j2 hj1 hj2
        obtain ⟨hi1, hlv1⟩ := hlive2 i1 h1
        obtain ⟨hi2, hlv2⟩ := hlive2 i2 h2
        rw [hino2 i1 hi1] at hj1 ⊢
        rw [hino2 i2 hi2] at hj2 ⊢
        exact hg.live_disjoint i1 i2 hlv1 hlv2 hne j1 j2 hj1 hj2
      · intro i1 i2 h1 h2 hne
        obtain ⟨hi1, hlv1⟩ := hlive2 i1 h1
        obtain ⟨hi2, hlv2⟩ := hlive2 i2 h2
        rw [hino2 i1 hi1, hino2 i2 hi2]
        exact hg.names_uniq i1 i2 hlv1 hlv2 hne

theorem MAX_BLOCKS_eq : MAX_BLOCKS = 16 := rfl

/-- On the found-file path (data non-empty, name resolves, size within the
block budget), `fs_write` is exactly the free-all-old-blocks phase followed
by the allocate-and-commit phase. -/
theorem fs_write_eq_found (fs : Filesystem) (nm : List Char) (data : List Nat)
    (inum : Nat) (hfind : findInode fs nm = some inum) (hd : data.length ≠ 0)
    (hneeded : (data.length + (BLOCK_SIZE - 1)) / BLOCK_SIZE ≤ MAX_BLOCKS) :
    fs_write fs nm data =
      writeAlloc inum data ((data.length + (BLOCK_SIZE - 1)) / BLOCK_SIZE)
        (freeLoop (inoAt fs inum) fs (List.range (inoAt fs inum).num_blocks)) := by
  simp only [fs_write, if_neg hd, hfind]
  rw [if_neg (by omega)]

/-- Reassembling `Good` for the state after a write, from the facts the two
loop specifications provide: the inode map is untouched, every non-target
inode is untouched and its blocks still allocated, and the target inode owns
`nb2` fresh blocks that are valid, allocated, pairwise distinct and disjoint
from every other live inode's blocks. -/
theorem good_of_parts (fs F : Filesystem) (inum nb2 : Nat)
    (hg : Good fs)
    (hlive_inum : liveIdx fs inum = true)
    (S1 : F.total_blocks = MAX_BLOCKS) (S2 : F.total_inodes = MAX_FILES)
    (S3 : F.block_map.length = MAX_BLOCKS) (S4 : F.inode_map = fs.inode_map)
    (S5 : F.blocks.length = MAX_BLOCKS)
    (S6 : ∀ bl ∈ F.blocks, bl.length = BLOCK_SIZE)
    (S7 : F.inodes.length = MAX_FILES)
    (S9 : F.free_blocks = countFalse F.block_map)
    (S10 : F.free_inodes = fs.free_inodes)
    (H2 : ∀ i, i ≠ inum → inoAt F i = inoAt fs i)
    (H3 : (inoAt F inum).name = (inoAt fs inum).name)
    (H4 : (inoAt F inum).num_blocks = nb2)
    (H5 : (inoAt F inum).blocks.length = MAX_BLOCKS)
    (H7 : nb2 ≤ MAX_BLOCKS)
    (H9 : ∀ j1 j2, j1 < nb2 → j2 < nb2 → j1 ≠ j2 →
      (inoAt F inum).blocks.getD j1 0 ≠ (inoAt F inum).blocks.getD j2 0)
    (H10 : ∀ j, j < nb2 → (inoAt F inum).blocks.getD j 0 < MAX_BLOCKS)
    (H12 : ∀ j, j < nb2 →
      F.block_map.getD ((inoAt F inum).blocks.getD j 0) false = true)
    (H11 : ∀ i, i ≠ inum → liveIdx fs i = true → ∀ j, j < (inoAt fs i).num_blocks →
      F.block_map.getD ((inoAt fs i).blocks.getD j 0) false = true)
    (H13 : ∀ i, i ≠ inum → liveIdx fs i = true → ∀ j1 j2, j1 < nb2 →
      j2 < (inoAt fs i).num_blocks →
      (inoAt F inum).blocks.getD j1 0 ≠ (inoAt fs i).blocks.getD j2 0) :
    Good F := by
  have hlF : ∀ i, liveIdx F i = liveIdx fs i := by
    intro i
    rw [liveIdx, liveIdx, S4]
  refine ⟨S1, S2, S3, by rw [S4]; exact hg.im_len, S5, S7, S6, ?_, S9,
    by rw [S10, S4]; exact hg.fi, ?_, ?_, ?_, ?_, ?_, ?_⟩
  · intro i
    by_cases hi : i = inum
    · subst hi
      exact H5
    · rw [H2 i hi]
      exact hg.ino_blen i
  · intro i hl
    by_cases hi : i = inum
    · subst hi
      rw [H4]
      exact H7
    · rw [H2 i hi]
      exact hg.live_nb i (by rw [← hlF i]; exact hl)
  · intro i hl
    by_cases hi : i = inum
    · rw [hi, H3]
      exact hg.live_name inum hlive_inum
    · rw [H2 i hi]
      exact hg.live_name i (by rw [← hlF i]; exact hl)
  · intro i hl j hj
    by_cases hi : i = inum
    · subst hi
      rw [H4] at hj
      exact ⟨H10 j hj, H12 j hj⟩
    · have hlf : liveIdx fs i = true := by rw [← hlF i]; exact hl
      rw [H2 i hi] at hj ⊢
      exact ⟨(hg.live_valid i hlf j hj).1, H11 i hi hlf j hj⟩
  · intro i hl j1 j2 hj1 hj2 hne
    by_cases hi : i = inum
    · subst hi
      rw [H4] at hj1 hj2
      exact H9 j1 j2 hj1 hj2 hne
    · have hlf : liveIdx fs i = true := by rw [← hlF i]; exact hl
      rw [H2 i hi] at hj1 hj2 ⊢
      exact hg.live_distinct i hlf j1 j2 hj1 hj2 hne
  · intro i1 i2 hl1 hl2 hne j1 j2 hj1 hj2
    by_cases hi1 : i1 = inum
    · have hi2 : i2 ≠ inum := fun hh => hne (hi1.trans hh.symm)
      have hlf2 : liveIdx fs i2 = true := by rw [← hlF i2]; exact hl2
      rw [hi1] at hj1 ⊢
      rw [H4] at hj1
      rw [H2 i2 hi2] at hj2 ⊢
      exact H13 i2 hi2 hlf2 j1 j2 hj1 hj2
    · by_cases hi2 : i2 = inum
      · have hlf1 : liveIdx fs i1 = true := by rw [← hlF i1]; exact hl1
        rw [hi2] at hj2 ⊢
        rw [H4] at hj2
        rw [H2 i1 hi1] at hj1 ⊢
        exact (H13 i1 hi1 hlf1 j2 j1 hj2 hj1).symm
      · have hlf1 : liveIdx fs i1 = true := by rw [← hlF i1]; exact hl1
        have hlf2 : liveIdx fs i2 = true := by rw [← hlF i2]; exact hl2
        rw [H2 i1 hi1] at hj1 ⊢
        rw [H2 i2 hi2] at hj2 ⊢
        exact hg.live_disjoint i1 i2 hlf1 hlf2 hne j1 j2 hj1 hj2
  · intro i1 i2 hl1 hl2 hne
    by_cases hi1 : i1 = inum
    · have hi2 : i2 ≠ inum := fun hh => hne (hi1.trans hh.symm)
      have hlf2 : liveIdx fs i2 = true := by rw [← hlF i2]; exact hl2
      rw [hi1, H3, H2 i2 hi2]
      exact hg.names_uniq inum i2 hlive_inum hlf2 (fun hh => hi2 hh.symm)
    · by_cases hi2 : i2 = inum
      · have hlf1 : liveIdx fs i1 = true := by rw [← hlF i1]; exact hl1
        rw [hi2, H2 i1 hi1, H3]
        exact hg.names_uniq i1 inum hlf1 hlive_inum hi1
      · have hlf1 : liveIdx fs i1 = true := by rw [← hlF i1]; exact hl1
        have hlf2 : liveIdx fs i2 = true := by rw [← hlF i2]; exact hl2
        rw [H2 i1 hi1, H2 i2 hi2]
        exact hg.names_uniq i1 i2 hlf1 hlf2 hne

theorem good_write (fs : Filesystem) (nm : List Char) (data : List Nat)
    (hg : Good fs) : Good (fs_write fs nm data).snd := by
  by_cases hd : data.length = 0
  · rw [fs_write, if_pos hd]
    exact hg
  cases hfind : findInode fs nm with
  | none =>
      simp only [fs_write, if_neg hd, hfind]
      exact hg
  | some inum =>
      by_cases hneeded : (data.length + (BLOCK_SIZE - 1)) / BLOCK_SIZE ≤ MAX_BLOCKS
      · rw [fs_write_eq_found fs nm data inum hfind hd hneeded]
        obtain ⟨hlt, hlive, _hname⟩ := findInode_some fs nm inum hfind
        have hinum256 : inum < MAX_FILES := by
          rw [hg.ti] at hlt
          exact hlt
        set needed := (data.length + (BLOCK_SIZE - 1)) / BLOCK_SIZE with hneeddef
        set m := (inoAt fs inum).num_blocks with hmdef
        have hm16 : m ≤ MAX_BLOCKS := hg.live_nb inum hlive
        have hval : ∀ j ∈ List.range m,
            (inoAt fs inum).blocks.getD j 0 < fs.block_map.length ∧
            fs.block_map.getD ((inoAt fs inum).blocks.getD j 0) false = true := by
          intro j hj
          obtain ⟨h1, h2⟩ := hg.live_valid inum hlive j (List.mem_range.mp hj)
          exact ⟨by rw [hg.bm_len]; exact h1, h2⟩
        have hpair : (List.range m).Pairwise
            (fun a b => (inoAt fs inum).blocks.getD a 0 ≠ (inoAt fs inum).blocks.getD b 0) :=
          pairwise_range_ne _ _ (hg.live_distinct inum hlive)
        obtain ⟨hu_tb, hu_ti, hu_fi, hu_imap, hu_inodes, hu_blocks, hu_bmlen⟩ :=
          freeLoop_unchanged (inoAt fs inum) (List.range m) fs
        have hfree := freeLoop_free_blocks (inoAt fs inum) (List.range m) fs
        have hcount := freeLoop_count (inoAt fs inum) (List.range m) fs hval hpair
        set mid := freeLoop (inoAt fs inum) fs (List.range m) with hmiddef
        have hinomid : inoAt mid inum = inoAt fs inum := by
          unfold inoAt
          rw [hu_inodes]
        have hcmid : countFalse mid.block_map = countFalse fs.block_map + m := by
          rw [hcount, List.length_range]
        have hfreemid : mid.free_blocks = fs.free_blocks + m := by
          rw [hfree, List.length_range]
        obtain ⟨alloc, SW⟩ := writeLoop_spec inum data needed needed 0 mid
          (by rw [hu_bmlen, hu_tb, hg.bm_len, hg.tb])
          (by rw [hu_blocks, hu_bmlen, hg.blocks_len, hg.bm_len])
          (by rw [hu_inodes, hg.inodes_len]; exact hinum256)
          (by rw [hinomid, hg.ino_blen inum]; omega)
        set res := writeLoop inum data needed mid (List.range' 0 needed) with hresdef
        set F := res.snd with hFdef
        -- translate the loop facts to the pre-write state
        have hSmap : ∀ b, F.block_map.getD b false =
            (if b ∈ alloc then true else mid.block_map.getD b false) := SW.map_getD
        have hS1 : F.total_blocks = MAX_BLOCKS := by rw [SW.tb, hu_tb, hg.tb]
        have hS2 : F.total_inodes = MAX_FILES := by rw [SW.ti, hu_ti, hg.ti]
        have hS3 : F.block_map.length = MAX_BLOCKS := by
          rw [SW.map_len, hu_bmlen, hg.bm_len]
        have hS4 : F.inode_map = fs.inode_map := by rw [SW.imap, hu_imap]
        have hS5 : F.blocks.length = MAX_BLOCKS := by
          rw [SW.blocks_len, hu_blocks, hg.blocks_len]
        have hS6 : ∀ bl ∈ F.blocks, bl.length = BLOCK_SIZE :=
          SW.blocks_sz (by rw [hu_blocks]; exact hg.blocks_sz)
        have hS7 : F.inodes.length = MAX_FILES := by
          rw [SW.inodes_len, hu_inodes, hg.inodes_len]
        have hS9 : F.free_blocks = countFalse F.block_map := by
          rw [SW.free, SW.count, hfreemid, hcmid, hg.fb]
        have hS10 : F.free_inodes = fs.free_inodes := by rw [SW.fi, hu_fi]
        have hothers : ∀ i, i ≠ inum → inoAt F i = inoAt fs i := by
          intro i hi
          unfold inoAt
          rw [SW.others i hi, hu_inodes]
        have ht_name : (inoAt F inum).name = (inoAt fs inum).name := by
          rw [SW.t_name, hinomid]
        have ht_nb : (inoAt F inum).num_blocks = m := by
          rw [SW.t_nb, hinomid]
        have ht_blen : (inoAt F inum).blocks.length = MAX_BLOCKS := by
          rw [SW.t_blen, hinomid]
          exact hg.ino_blen inum
        have ht_in : ∀ j, j < alloc.length →
            (inoAt F inum).blocks.getD j 0 = alloc.getD j 0 := by
          intro j hj
          have h := SW.t_in j hj
          rwa [Nat.zero_add] at h
        have halen : alloc.length = min needed (countFalse fs.block_map + m) := by
          rw [SW.alen, hcmid]
        have hafree : ∀ b ∈ alloc, b < MAX_BLOCKS ∧
            mid.block_map.getD b false = false := by
          intro b hb
          obtain ⟨h1, h2⟩ := SW.afree b hb
          rw [hu_bmlen, hg.bm_len] at h1
          exact ⟨h1, h2⟩
        have hmid_others : ∀ i, i ≠ inum → liveIdx fs i = true →
            ∀ j, j < (inoAt fs i).num_blocks →
            mid.block_map.getD ((inoAt fs i).blocks.getD j 0) false = true := by
          intro i hi hlv j hj
          rw [hmiddef, freeLoop_map_not_mem _ _ _ _ ?_]
          · exact (hg.live_valid i hlv j hj).2
          · intro j' hj'
            exact hg.live_disjoint inum i hlive hlv (fun hh => hi hh.symm) j' j
              (List.mem_range.mp hj') hj
        have hF_alloc_used : ∀ b ∈ alloc, F.block_map.getD b false = true := by
          intro b hb
          rw [hSmap b, if_pos hb]
        have hF_others_used : ∀ i, i ≠ inum → liveIdx fs i = true →
            ∀ j, j < (inoAt fs i).num_blocks →
            F.block_map.getD ((inoAt fs i).blocks.getD j 0) false = true := by
          intro i hi hlv j hj
          rw [hSmap]
          by_cases hmem : (inoAt fs i).blocks.getD j 0 ∈ alloc
          · rw [if_pos hmem]
          · rw [if_neg hmem]
            exact hmid_others i hi hlv j hj
        have hdisj : ∀ i, i ≠ inum → liveIdx fs i = true → ∀ j1 j2,
            j1 < alloc.length → j2 < (inoAt fs i).num_blocks →
            (inoAt F inum).blocks.getD j1 0 ≠ (inoAt fs i).blocks.getD j2 0 := by
          intro i hi hlv j1 j2 hj1 hj2 heq
          have hmem : (inoAt F inum).blocks.getD j1 0 ∈ alloc := by
            rw [ht_in j1 hj1]
            exact getD_mem alloc j1 0 hj1
          have hfree2 := (hafree _ hmem).2
          rw [heq] at hfree2
          rw [hmid_others i hi hlv j2 hj2] at hfree2
          exact absurd hfree2 (by simp)
        have hdist : ∀ j1 j2, j1 < alloc.length → j2 < alloc.length → j1 ≠ j2 →
            (inoAt F inum).blocks.getD j1 0 ≠ (inoAt F inum).blocks.getD j2 0 := by
          intro j1 j2 hj1 hj2 hne
          rw [ht_in j1 hj1, ht_in j2 hj2]
          exact SW.adist j1 j2 hj1 hj2 hne
        have hvalid : ∀ j, j < alloc.length →
            (inoAt F inum).blocks.getD j 0 < MAX_BLOCKS := by
          intro j hj
          rw [ht_in j hj]
          exact (hafree _ (getD_mem alloc j 0 hj)).1
        have hused : ∀ j, j < alloc.length →
            F.block_map.getD ((inoAt F inum).blocks.getD j 0) false = true := by
          intro j hj
          rw [ht_in j hj]
          exact hF_alloc_used _ (getD_mem alloc j 0 hj)
        rw [writeAlloc, List.range_eq_range', ← hresdef]
        cases hok : res.fst with
        | false =>
            have hsplit : res = (false, F) := by
              rw [← hok]
            rw [hsplit]
            show Good F
            have hmle : m ≤ alloc.length := by
              have hgt : ¬(needed ≤ countFalse mid.block_map) := by
                intro hcon
                have h := SW.ok_iff.mpr hcon
                rw [hok] at h
                exact absurd h (by simp)
              rw [hcmid] at hgt
              rw [halen]
              omega
            exact good_of_parts fs F inum m hg hlive hS1 hS2 hS3 hS4 hS5 hS6 hS7
              hS9 hS10 hothers ht_name ht_nb ht_blen hm16
              (fun j1 j2 hj1 hj2 hne => hdist j1 j2 (by omega) (by omega) hne)
              (fun j hj => hvalid j (by omega))
              (fun j hj => hused j (by omega))
              hF_others_used
              (fun i hi hlv j1 j2 hj1 hj2 => hdisj i hi hlv j1 j2 (by omega) hj2)
        | true =>
            have hsplit : res = (true, F) := by
              rw [← hok]
            rw [hsplit]
            show Good (updInode F inum (fun ino =>
              { ino with size := data.length, num_blocks := needed }))
            set F2 := updInode F inum (fun ino =>
              { ino with size := data.length, num_blocks := needed }) with hF2def
            have hinumF : inum < F.inodes.length := by
              rw [hS7]
              exact hinum256
            have hinoF2 : inoAt F2 inum =
                { inoAt F inum with size := data.length, num_blocks := needed } := by
              rw [hF2def]
              exact inoAt_updInode_self F inum _ hinumF
            have hle : needed ≤ alloc.length := by
              have hok2 : needed ≤ countFalse mid.block_map := SW.ok_iff.mp hok
              rw [hcmid] at hok2
              rw [halen]
              omega
            have hoth2 : ∀ i, i ≠ inum → inoAt F2 i = inoAt fs i := by
              intro i hi
              rw [hF2def, inoAt_updInode_ne F inum i _ (fun hh => hi hh.symm)]
              exact hothers i hi
            have hblocks2 : (inoAt F2 inum).blocks = (inoAt F inum).blocks := by
              rw [hinoF2]
            refine good_of_parts fs F2 inum needed hg hlive hS1 hS2 hS3 hS4 hS5 hS6
              (by rw [hF2def]; show (F.inodes.set inum _).length = MAX_FILES;
                  rw [List.length_set]; exact hS7)
              hS9 hS10 hoth2 ?_ ?_ ?_ hneeded ?_ ?_ ?_ hF_others_used ?_
            · rw [hinoF2]
              exact ht_name
            · rw [hinoF2]
            · rw [hblocks2]
              exact ht_blen
            · intro j1 j2 hj1 hj2 hne
              rw [hblocks2]
              exact hdist j1 j2 (by omega) (by omega) hne
            · intro j hj
              rw [hblocks2]
              exact hvalid j (by omega)
            · intro j hj
              rw [hblocks2]
              exact hused j (by omega)
            · intro i hi hlv j1 j2 hj1 hj2
              rw [hblocks2]
              exact hdisj i hi hlv j1 j2 (by omega) hj2
      · simp only [fs_write, if_neg hd, hfind]
        rw [if_pos (by omega)]
        exact hg

/-- Every reachable state satisfies the full invariant. -/
theorem reachable_good (fs : Filesystem) (h : Reachable fs) : Good fs := by
  induction h with
  | init => exact good_init
  | create fs nm _ ih => exact good_create fs nm ih
  | write fs nm data _ ih => exact good_write fs nm data ih
  | delete fs nm _ ih => exact good_delete fs nm ih

theorem referencedB_true_iff (fs : Filesystem) (b : Nat) :
    referencedB fs b = true ↔
    ∃ i, i < MAX_FILES ∧ liveIdx fs i = true ∧
      ∃ j, j < (inoAt fs i).num_blocks ∧ (inoAt fs i).blocks.getD j 0 = b := by
  unfold referencedB liveIdx
  simp only [List.any_eq_true, List.mem_range, Bool.and_eq_true, beq_iff_eq]

theorem referencedB_false_iff (fs : Filesystem) (b : Nat) :
    referencedB fs b = false ↔
    ∀ i, i < MAX_FILES → liveIdx fs i = true →
      ∀ j, j < (inoAt fs i).num_blocks → (inoAt fs i).blocks.getD j 0 ≠ b := by
  rw [show (referencedB fs b = false) = ¬(referencedB fs b = true) from
    (Bool.not_eq_true _).symm]
  rw [referencedB_true_iff]
  push_neg
  tauto

/-! ### Concrete demonstration states -/

set_option maxRecDepth 1000000

def nameA : List Char := ['a']
def nameB : List Char := ['b']
def nameC : List Char := ['c']

/-- Fresh file system with one empty file `"a"` (inode 0). -/
def demoFS : Filesystem := (fs_create_file fs_create nameA).snd

/-- `"a"` after writing exactly `BLOCK_SIZE` bytes of value `1`. -/
def demo64 : Filesystem := (fs_write demoFS nameA (List.replicate 64 1)).snd

/-- `"a"` after writing `2 * BLOCK_SIZE` bytes of value `1`. -/
def demo128 : Filesystem := (fs_write demoFS nameA (List.replicate 128 1)).snd

/-- `"a"` after writing a single byte. -/
def demo1 : Filesystem := (fs_write demoFS nameA [7]).snd

/-- C1.  The round-trip law fails at the exact-multiple boundary: writing
`BLOCK_SIZE` bytes of value `1` to a live file reports success (returns 64),
and the subsequent `fs_read` of 64 bytes also returns 64, but the returned
buffer still holds the caller's original zero bytes, not the data: the C
expression `size % BLOCK_SIZE` copies zero bytes for the final block on both
the write and the read when the size is an exact multiple of `BLOCK_SIZE`. -/
theorem c1_roundtrip_fails_at_exact_block_multiple :
    (fs_write demoFS nameA (List.replicate 64 1)).fst = 64 ∧
    (fs_read demo64 nameA (List.replicate 64 0) 64).fst = 64 ∧
    (fs_read demo64 nameA (List.replicate 64 0) 64).snd.take 64 ≠
      List.replicate 64 1 ∧
    (fs_read demo64 nameA (List.replicate 64 0) 64).snd.take 64 =
      List.replicate 64 0 := by
  exact ⟨by decide, by decide, by decide, by decide⟩

/-- C2.  `fs_read` returns `to_read = min(max_size, inode.size)` but does
not bound its copying by `to_read`: on a 128-byte file read with
`max_size = 1` it returns 1, yet it copies the whole first block, so buffer
position 1 (at index `≥ to_read`) is overwritten with file data. -/
theorem c2_read_writes_past_to_read :
    (fs_read demo128 nameA (List.replicate 128 0) 1).fst = 1 ∧
    (fs_read demo128 nameA (List.replicate 128 0) 1).snd.getD 1 0 = 1 := by
  exact ⟨by decide, by decide⟩

/-- C3 counterexample.  Creating a file with the empty string as name on a
fresh file system succeeds (returns inode 0, not `-1`): the claim that
create with an empty name always fails is false of the code, whose guard
checks only `strlen(filename) >= MAX_FILENAME`. -/
theorem c3_counterexample_empty_name_create_succeeds :
    (fs_create_file fs_create []).fst = 0 := by decide

/-- C3 (amended).  `fs_create_file`'s name guard rejects exactly the names
of length `≥ MAX_FILENAME`; the empty name is not rejected.  The call
returns `-1` precisely when the name is over-long, a live file already has
that name, or no inode slot is free. -/
theorem c3_amended_create_name_check (fs : Filesystem) (nm : List Char) :
    (fs_create_file fs nm).fst = -1 ↔
      (MAX_FILENAME ≤ nm.length ∨ (findInode fs nm).isSome = true ∨
        firstFreeAux (fs.inode_map.take fs.total_inodes) = none) := by
  rw [fs_create_file]
  by_cases hlen : MAX_FILENAME ≤ nm.length
  · rw [if_pos hlen]
    simp [hlen]
  · rw [if_neg hlen]
    cases hfind : findInode fs nm with
    | some i => simp [hlen, hfind]
    | none =>
        rw [find_free_inode]
        cases hfa : firstFreeAux (fs.inode_map.take fs.total_inodes) with
        | none => simp [hlen, hfind, hfa]
        | some i =>
            constructor
            · intro h
              exfalso
              have h2 : (i : Int) = -1 := h
              omega
            · intro h
              rcases h with h | h | h
              · exact absurd h hlen
              · simp at h
              · simp at h

/-- C4.  In every state reachable by any sequence of create/write/read/
delete operations from a fresh file system (including states after failed
operations), `free_blocks` equals the number of free (`0`) entries of
`block_map` and `free_inodes` equals the number of free entries of
`inode_map`.  (`fs_read` never modifies the state, so the reachability
relation needs no read step.) -/
theorem c4_free_counts_match_maps (fs : Filesystem) (h : Reachable fs) :
    fs.free_blocks = countFalse fs.block_map ∧
    fs.free_inodes = countFalse fs.inode_map :=
  ⟨(reachable_good fs h).fb, (reachable_good fs h).fi⟩

theorem c4_witness :
    demo128.free_blocks = countFalse demo128.block_map ∧
    demo128.free_inodes = countFalse demo128.inode_map :=
  c4_free_counts_match_maps demo128
    (Reachable.write demoFS nameA (List.replicate 128 1)
      (Reachable.create fs_create nameA Reachable.init))

/-- C5.  In every reachable state (including states left behind by a write
that failed with no space partway through allocation), every block index in
a live inode's `blocks[0 .. num_blocks-1]` is currently marked allocated in
the block map. -/
theorem c5_live_blocks_allocated (fs : Filesystem) (h : Reachable fs) :
    ∀ i, liveIdx fs i = true → ∀ j, j < (inoAt fs i).num_blocks →
      blockUsed fs ((inoAt fs i).blocks.getD j 0) = true :=
  fun i hi j hj => ((reachable_good fs h).live_valid i hi j hj).2

theorem c5_witness :
    liveIdx demo1 0 = true ∧ 0 < (inoAt demo1 0).num_blocks ∧
    blockUsed demo1 ((inoAt demo1 0).blocks.getD 0 0) = true :=
  ⟨by decide, by decide,
    c5_live_blocks_allocated demo1
      (Reachable.write demoFS nameA [7]
        (Reachable.create fs_create nameA Reachable.init))
      0 (by decide) 0 (by decide)⟩

/-- C8.  Both allocators are first-fit, lowest-index-first: they fail
exactly when every map entry inside the scanned capacity is used, and on
success they return an index whose entry is free while all lower entries
are used, marking it used and decrementing the free counter; a failed scan
leaves the state unchanged.  (Determinism is definitional: the allocators
are functions of the state.) -/
theorem c8_first_fit_allocators (fs : Filesystem) (hr : Reachable fs) :
    ((find_free_block fs).fst = none ↔
      ∀ b, b < fs.total_blocks → fs.block_map.getD b false = true) ∧
    (∀ b, (find_free_block fs).fst = some b →
      fs.block_map.getD b false = false ∧
      (∀ j, j < b → fs.block_map.getD j false = true) ∧
      (find_free_block fs).snd = { fs with block_map := fs.block_map.set b true,
                                           free_blocks := fs.free_blocks - 1 }) ∧
    ((find_free_block fs).fst = none → (find_free_block fs).snd = fs) ∧
    ((find_free_inode fs).fst = none ↔
      ∀ i, i < fs.total_inodes → fs.inode_map.getD i false = true) ∧
    (∀ i, (find_free_inode fs).fst = some i →
      fs.inode_map.getD i false = false ∧
      (∀ j, j < i → fs.inode_map.getD j false = true) ∧
      (find_free_inode fs).snd = { fs with inode_map := fs.inode_map.set i true,
                                           free_inodes := fs.free_inodes - 1 }) ∧
    ((find_free_inode fs).fst = none → (find_free_inode fs).snd = fs) := by
  have hg := reachable_good fs hr
  have hb : fs.block_map.length = fs.total_blocks := hg.bm_len.trans hg.tb.symm
  have hi : fs.inode_map.length = fs.total_inodes := hg.im_len.trans hg.ti.symm
  refine ⟨?_, ?_, fun h => find_free_block_none_state fs h, ?_, ?_,
    fun h => find_free_inode_none_state fs h⟩
  · rw [find_free_block_none_iff fs hb, countFalse_eq_zero_iff, hb]
  · intro b hsome
    obtain ⟨_h1, h2, h3, h4⟩ := find_free_block_some fs b hb hsome
    exact ⟨h2, h3, h4⟩
  · rw [find_free_inode_none_iff fs hi, countFalse_eq_zero_iff, hi]
  · intro i hsome
    obtain ⟨_h1, h2, h3, h4⟩ := find_free_inode_some fs i hi hsome
    exact ⟨h2, h3, h4⟩

theorem c8_witness :
    ((find_free_block demoFS).fst = none ↔
      ∀ b, b < demoFS.total_blocks → demoFS.block_map.getD b false = true) ∧
    (∀ b, (find_free_block demoFS).fst = some b →
      demoFS.block_map.getD b false = false ∧
      (∀ j, j < b → demoFS.block_map.getD j false = true) ∧
      (find_free_block demoFS).snd =
        { demoFS with block_map := demoFS.block_map.set b true,
                      free_blocks := demoFS.free_blocks - 1 }) ∧
    ((find_free_block demoFS).fst = none → (find_free_block demoFS).snd = demoFS) ∧
    ((find_free_inode demoFS).fst = none ↔
      ∀ i, i < demoFS.total_inodes → demoFS.inode_map.getD i false = true) ∧
    (∀ i, (find_free_inode demoFS).fst = some i →
      demoFS.inode_map.getD i false = false ∧
      (∀ j, j < i → demoFS.inode_map.getD j false = true) ∧
      (find_free_inode demoFS).snd =
        { demoFS with inode_map := demoFS.inode_map.set i true,
                      free_inodes := demoFS.free_inodes - 1 }) ∧
    ((find_free_inode demoFS).fst = none → (find_free_inode demoFS).snd = demoFS) :=
  c8_first_fit_allocators demoFS (Reachable.create fs_create nameA Reachable.init)

/-- Complete characterization of `fs_write` on the found-file path: the call
fails (returns `-1`) iff the pool cannot supply `needed_blocks` blocks even
after the file's own blocks were freed, and on failure the pool is fully
exhausted while the target inode keeps its old `num_blocks` but its block
array now holds the `free_blocks + num_blocks` freshly allocated blocks in
its first entries — valid, marked used, pairwise distinct, and disjoint
from every other live inode's list; all other inodes and the inode map are
untouched. -/
theorem write_found_cases (fs : Filesystem) (nm : List Char) (data : List Nat)
    (inum : Nat) (hg : Good fs) (hfind : findInode fs nm = some inum)
    (hd : data.length ≠ 0)
    (hneeded : (data.length + (BLOCK_SIZE - 1)) / BLOCK_SIZE ≤ MAX_BLOCKS) :
    ((fs_write fs nm data).fst = -1 ↔
      fs.free_blocks + (inoAt fs inum).num_blocks <
        (data.length + (BLOCK_SIZE - 1)) / BLOCK_SIZE) ∧
    ((fs_write fs nm data).fst = -1 →
      (fs_write fs nm data).snd.free_blocks = 0 ∧
      countFalse (fs_write fs nm data).snd.block_map = 0 ∧
      (inoAt (fs_write fs nm data).snd inum).num_blocks =
        (inoAt fs inum).num_blocks ∧
      (∀ i2, i2 ≠ inum → inoAt (fs_write fs nm data).snd i2 = inoAt fs i2) ∧
      (fs_write fs nm data).snd.inode_map = fs.inode_map ∧
      (∀ j, j < fs.free_blocks + (inoAt fs inum).num_blocks →
        (inoAt (fs_write fs nm data).snd inum).blocks.getD j 0 < MAX_BLOCKS ∧
        (fs_write fs nm data).snd.block_map.getD
          ((inoAt (fs_write fs nm data).snd inum).blocks.getD j 0) false = true) ∧
      (∀ j1 j2, j1 < fs.free_blocks + (inoAt fs inum).num_blocks →
        j2 < fs.free_blocks + (inoAt fs inum).num_blocks → j1 ≠ j2 →
        (inoAt (fs_write fs nm data).snd inum).blocks.getD j1 0 ≠
          (inoAt (fs_write fs nm data).snd inum).blocks.getD j2 0) ∧
      (∀ i2, i2 ≠ inum → liveIdx fs i2 = true → ∀ j1 j2,
        j1 < fs.free_blocks + (inoAt fs inum).num_blocks →
        j2 < (inoAt fs i2).num_blocks →
        (inoAt (fs_write fs nm data).snd inum).blocks.getD j1 0 ≠
          (inoAt fs i2).blocks.getD j2 0)) := by
  obtain ⟨hlt, hlive, _hname⟩ := findInode_some fs nm inum hfind
  have hinum256 : inum < MAX_FILES := by
    rw [hg.ti] at hlt
    exact hlt
  rw [fs_write_eq_found fs nm data inum hfind hd hneeded]
  set needed := (data.length + (BLOCK_SIZE - 1)) / BLOCK_SIZE with hneeddef
  set m := (inoAt fs inum).num_blocks with hmdef
  have hval : ∀ j ∈ List.range m,
      (inoAt fs inum).blocks.getD j 0 < fs.block_map.length ∧
      fs.block_map.getD ((inoAt fs inum).blocks.getD j 0) false = true := by
    intro j hj
    obtain ⟨h1, h2⟩ := hg.live_valid inum hlive j (List.mem_range.mp hj)
    exact ⟨by rw [hg.bm_len]; exact h1, h2⟩
  have hpair : (List.range m).Pairwise
      (fun a b => (inoAt fs inum).blocks.getD a 0 ≠ (inoAt fs inum).blocks.getD b 0) :=
    pairwise_range_ne _ _ (hg.live_distinct inum hlive)
  obtain ⟨hu_tb, hu_ti, hu_fi, hu_imap, hu_inodes, hu_blocks, hu_bmlen⟩ :=
    freeLoop_unchanged (inoAt fs inum) (List.range m) fs
  have hfree := freeLoop_free_blocks (inoAt fs inum) (List.range m) fs
  have hcount := freeLoop_count (inoAt fs inum) (List.range m) fs hval hpair
  set mid := freeLoop (inoAt fs inum) fs (List.range m) with hmiddef
  have hinomid : inoAt mid inum = inoAt fs inum := by
    unfold inoAt
    rw [hu_inodes]
  have hcmid : countFalse mid.block_map = countFalse fs.block_map + m := by
    rw [hcount, List.length_range]
  have hfreemid : mid.free_blocks = fs.free_blocks + m := by
    rw [hfree, List.length_range]
  obtain ⟨alloc, SW⟩ := writeLoop_spec inum data needed needed 0 mid
    (by rw [hu_bmlen, hu_tb, hg.bm_len, hg.tb])
    (by rw [hu_blocks, hu_bmlen, hg.blocks_len, hg.bm_len])
    (by rw [hu_inodes, hg.inodes_len]; exact hinum256)
    (by rw [hinomid, hg.ino_blen inum]; omega)
  set res := writeLoop inum data needed mid (List.range' 0 needed) with hresdef
  set F := res.snd with hFdef
  have hSmap : ∀ b, F.block_map.getD b false =
      (if b ∈ alloc then true else mid.block_map.getD b false) := SW.map_getD
  have hothers : ∀ i, i ≠ inum → inoAt F i = inoAt fs i := by
    intro i hi
    unfold inoAt
    rw [SW.others i hi, hu_inodes]
  have ht_nb : (inoAt F inum).num_blocks = m := by
    rw [SW.t_nb, hinomid]
  have ht_in : ∀ j, j < alloc.length →
      (inoAt F inum).blocks.getD j 0 = alloc.getD j 0 := by
    intro j hj
    have h := SW.t_in j hj
    rwa [Nat.zero_add] at h
  have halen : alloc.length = min needed (countFalse fs.block_map + m) := by
    rw [SW.alen, hcmid]
  have hafree : ∀ b ∈ alloc, b < MAX_BLOCKS ∧
      mid.block_map.getD b false = false := by
    intro b hb
    obtain ⟨h1, h2⟩ := SW.afree b hb
    rw [hu_bmlen, hg.bm_len] at h1
    exact ⟨h1, h2⟩
  have hmid_others : ∀ i, i ≠ inum → liveIdx fs i = true →
      ∀ j, j < (inoAt fs i).num_blocks →
      mid.block_map.getD ((inoAt fs i).blocks.getD j 0) false = true := by
    intro i hi hlv j hj
    rw [hmiddef, freeLoop_map_not_mem _ _ _ _ ?_]
    · exact (hg.live_valid i hlv j hj).2
    · intro j' hj'
      exact hg.live_disjoint inum i hlive hlv (fun hh => hi hh.symm) j' j
        (List.mem_range.mp hj') hj
  have hfb : fs.free_blocks = countFalse fs.block_map := hg.fb
  rw [writeAlloc, List.range_eq_range', ← hresdef]
  cases hok : res.fst with
  | true =>
      have hsplit : res = (true, F) := by rw [← hok]
      rw [hsplit]
      have hok2 : needed ≤ countFalse mid.block_map := SW.ok_iff.mp hok
      rw [hcmid] at hok2
      constructor
      · constructor
        · intro h
          exfalso
          have h2 : (data.length : Int) = -1 := h
          omega
        · intro h
          exfalso
          omega
      · intro h
        exfalso
        have h2 : (data.length : Int) = -1 := h
        omega
  | false =>
      have hsplit : res = (false, F) := by rw [← hok]
      rw [hsplit]
      have hgt : ¬(needed ≤ countFalse mid.block_map) := by
        intro hcon
        have h := SW.ok_iff.mpr hcon
        rw [hok] at h
        exact absurd h (by simp)
      rw [hcmid] at hgt
      have hlenfull : alloc.length = fs.free_blocks + m := by
        rw [halen, hfb]
        omega
      constructor
      · constructor
        · intro _
          omega
        · intro _
          rfl
      · intro _
        refine ⟨?_, ?_, ht_nb, hothers, by rw [SW.imap, hu_imap], ?_, ?_, ?_⟩
        · rw [SW.free, hfreemid, hlenfull, hfb]
          omega
        · rw [SW.count, hcmid, hlenfull, hfb]
          omega
        · intro j hj
          rw [← hlenfull] at hj
          constructor
          · rw [ht_in j hj]
            exact (hafree _ (getD_mem alloc j 0 hj)).1
          · rw [ht_in j hj, hSmap, if_pos (getD_mem alloc j 0 hj)]
        · intro j1 j2 hj1 hj2 hne
          rw [← hlenfull] at hj1 hj2
          rw [ht_in j1 hj1, ht_in j2 hj2]
          exact SW.adist j1 j2 hj1 hj2 hne
        · intro i2 hi2 hlv j1 j2 hj1 hj2 heq
          rw [← hlenfull] at hj1
          rw [ht_in j1 hj1] at heq
          have hmem : alloc.getD j1 0 ∈ alloc := getD_mem alloc j1 0 hj1
          have hfree2 := (hafree _ hmem).2
          rw [heq, hmid_others i2 hi2 hlv j2 hj2] at hfree2
          exact absurd hfree2 (by simp)

/-- C6.  On a live file, `fs_write` factors as the free-old-blocks loop
followed by the allocation phase, and at the intermediate state every block
previously owned by the inode is already freed (its map entry is 0 and
`free_blocks` has grown by `num_blocks`) before any allocation happens.
Consequently a write that then fails with no space leaves the pool fully
exhausted (`free_blocks = 0`) rather than restoring the pre-call state:
whenever the pre-call state had a nonzero free count, the failed call has
changed the state — there is no rollback. -/
theorem c6_write_frees_before_alloc (fs : Filesystem) (nm : List Char)
    (data : List Nat) (inum : Nat) (hr : Reachable fs)
    (hfind : findInode fs nm = some inum) (hd : data.length ≠ 0)
    (hneeded : (data.length + (BLOCK_SIZE - 1)) / BLOCK_SIZE ≤ MAX_BLOCKS) :
    fs_write fs nm data =
      writeAlloc inum data ((data.length + (BLOCK_SIZE - 1)) / BLOCK_SIZE)
        (freeLoop (inoAt fs inum) fs (List.range (inoAt fs inum).num_blocks)) ∧
    (∀ j, j < (inoAt fs inum).num_blocks →
      (freeLoop (inoAt fs inum) fs
        (List.range (inoAt fs inum).num_blocks)).block_map.getD
          ((inoAt fs inum).blocks.getD j 0) false = false) ∧
    (freeLoop (inoAt fs inum) fs (List.range (inoAt fs inum).num_blocks)).free_blocks =
      fs.free_blocks + (inoAt fs inum).num_blocks ∧
    ((fs_write fs nm data).fst = -1 →
      (fs_write fs nm data).snd.free_blocks = 0 ∧
      (fs.free_blocks ≠ 0 → (fs_write fs nm data).snd ≠ fs)) := by
  have hg := reachable_good fs hr
  have W := write_found_cases fs nm data inum hg hfind hd hneeded
  refine ⟨fs_write_eq_found fs nm data inum hfind hd hneeded, ?_, ?_, ?_⟩
  · intro j hj
    exact freeLoop_map_mem _ _ _ _ ⟨j, List.mem_range.mpr hj, rfl⟩
  · rw [freeLoop_free_blocks, List.length_range]
  · intro hm1
    obtain ⟨hfree0, _⟩ := W.2 hm1
    refine ⟨hfree0, ?_⟩
    intro hne heq
    apply hne
    rw [← heq]
    exact hfree0

theorem c6_witness :
    fs_write demo1 nameA [9] =
      writeAlloc 0 [9] (([9].length + (BLOCK_SIZE - 1)) / BLOCK_SIZE)
        (freeLoop (inoAt demo1 0) demo1 (List.range (inoAt demo1 0).num_blocks)) ∧
    (∀ j, j < (inoAt demo1 0).num_blocks →
      (freeLoop (inoAt demo1 0) demo1
        (List.range (inoAt demo1 0).num_blocks)).block_map.getD
          ((inoAt demo1 0).blocks.getD j 0) false = false) ∧
    (freeLoop (inoAt demo1 0) demo1 (List.range (inoAt demo1 0).num_blocks)).free_blocks =
      demo1.free_blocks + (inoAt demo1 0).num_blocks ∧
    ((fs_write demo1 nameA [9]).fst = -1 →
      (fs_write demo1 nameA [9]).snd.free_blocks = 0 ∧
      (demo1.free_blocks ≠ 0 → (fs_write demo1 nameA [9]).snd ≠ demo1)) :=
  c6_write_frees_before_alloc demo1 nameA [9] 0
    (Reachable.write demoFS nameA [7]
      (Reachable.create fs_create nameA Reachable.init))
    (by decide) (by decide) (by decide)

/-- A create call succeeds (returns a non-negative inode index) whenever
the name is short enough, no live file has it, and an inode slot is free. -/
theorem create_succeeds_of (D : Filesystem) (nm : List Char)
    (hlen : nm.length < MAX_FILENAME)
    (hfindD : findInode D nm = none)
    (hcf : countFalse D.inode_map ≠ 0)
    (hDlen : D.inode_map.length = D.total_inodes) :
    0 ≤ (fs_create_file D nm).fst := by
  rw [fs_create_file, if_neg (by omega), hfindD]
  rcases hffi : find_free_inode D with ⟨o, fsx⟩
  cases o with
  | none =>
      exfalso
      have hnonefst : (find_free_inode D).fst = none := by rw [hffi]
      exact hcf ((find_free_inode_none_iff D hDlen).mp hnonefst)
  | some i2 =>
      show (0 : Int) ≤ Int.ofNat i2
      exact Int.natCast_nonneg i2

/-- C7.  `fs_delete` on a live file returns 0, increases `free_blocks` by
exactly the file's `num_blocks`, frees the inode slot (incrementing
`free_inodes`, clearing the map bit and zeroing the record), and makes the
name immediately available: a subsequent `fs_create_file` with the same
name succeeds (an inode slot is necessarily free after the delete). -/
theorem c7_delete_frees_and_name_reusable (fs : Filesystem) (nm : List Char)
    (inum : Nat) (hr : Reachable fs) (hfind : findInode fs nm = some inum) :
    (fs_delete fs nm).fst = 0 ∧
    (fs_delete fs nm).snd.free_blocks =
      fs.free_blocks + (inoAt fs inum).num_blocks ∧
    (fs_delete fs nm).snd.free_inodes = fs.free_inodes + 1 ∧
    liveIdx (fs_delete fs nm).snd inum = false ∧
    inoAt (fs_delete fs nm).snd inum = zeroInode ∧
    0 ≤ (fs_create_file (fs_delete fs nm).snd nm).fst := by
  have hg := reachable_good fs hr
  obtain ⟨hlt, hlive, hname⟩ := findInode_some fs nm inum hfind
  have hinum256 : inum < MAX_FILES := by
    rw [hg.ti] at hlt
    exact hlt
  have hgD : Good (fs_delete fs nm).snd := good_delete fs nm hg
  obtain ⟨hu_tb, hu_ti, hu_fi, hu_imap, hu_inodes, hu_blocks, hu_bmlen⟩ :=
    freeLoop_unchanged (inoAt fs inum) (List.range (inoAt fs inum).num_blocks) fs
  simp only [fs_delete, hfind] at hgD ⊢
  have hlive_self : (((freeLoop (inoAt fs inum) fs
      (List.range (inoAt fs inum).num_blocks)).inode_map.set inum false).getD
        inum false) = false :=
    getD_set_self_false _ inum
  have hino_self : ((freeLoop (inoAt fs inum) fs
      (List.range (inoAt fs inum).num_blocks)).inodes.set inum zeroInode).getD
        inum zeroInode = zeroInode :=
    getD_set_self _ inum zeroInode zeroInode
      (by rw [hu_inodes, hg.inodes_len]; exact hinum256)
  have hliveD : ∀ i, i ≠ inum →
      liveIdx (fs_delete fs nm).snd i = liveIdx fs i := by
    intro i hi
    simp only [fs_delete, hfind]
    show ((freeLoop (inoAt fs inum) fs
      (List.range (inoAt fs inum).num_blocks)).inode_map.set inum false).getD i false =
        fs.inode_map.getD i false
    rw [getD_set_ne _ inum i false false (fun hh => hi hh.symm), hu_imap]
  have hinoD : ∀ i, i ≠ inum →
      inoAt (fs_delete fs nm).snd i = inoAt fs i := by
    intro i hi
    simp only [fs_delete, hfind]
    show ((freeLoop (inoAt fs inum) fs
      (List.range (inoAt fs inum).num_blocks)).inodes.set inum zeroInode).getD i
        zeroInode = fs.inodes.getD i zeroInode
    rw [getD_set_ne _ inum i zeroInode zeroInode (fun hh => hi hh.symm), hu_inodes]
  have hfind2 : findInode (fs_delete fs nm).snd nm = none := by
    rw [findInode_none_iff]
    intro i _hi hcon
    obtain ⟨hlvD, hnmD⟩ := hcon
    by_cases hii : i = inum
    · subst hii
      simp only [fs_delete, hfind] at hlvD
      rw [show liveIdx { freeLoop (inoAt fs i) fs (List.range (inoAt fs i).num_blocks) with
            inode_map := (freeLoop (inoAt fs i) fs
              (List.range (inoAt fs i).num_blocks)).inode_map.set i false,
            free_inodes := (freeLoop (inoAt fs i) fs
              (List.range (inoAt fs i).num_blocks)).free_inodes + 1,
            inodes := (freeLoop (inoAt fs i) fs
              (List.range (inoAt fs i).num_blocks)).inodes.set i zeroInode } i =
          (((freeLoop (inoAt fs i) fs
            (List.range (inoAt fs i).num_blocks)).inode_map.set i false).getD i false)
        from rfl] at hlvD
      rw [getD_set_self_false _ i] at hlvD
      exact absurd hlvD (by simp)
    · have hlv_fs : liveIdx fs i = true := by
        rw [← hliveD i hii]
        exact hlvD
      have hnm_fs : (inoAt fs i).name = nm := by
        rw [← hinoD i hii]
        exact hnmD
      exact hg.names_uniq i inum hlv_fs hlive hii (hnm_fs.trans hname.symm)
  have hcnt : countFalse (fs_delete fs nm).snd.inode_map =
      countFalse fs.inode_map + 1 := by
    simp only [fs_delete, hfind]
    show countFalse ((freeLoop (inoAt fs inum) fs
      (List.range (inoAt fs inum).num_blocks)).inode_map.set inum false) = _
    rw [hu_imap]
    exact countFalse_set_false fs.inode_map inum
      (by rw [hg.im_len]; exact hinum256) hlive
  refine ⟨by trivial, ?_, ?_, hlive_self, hino_self, ?_⟩
  · show (freeLoop (inoAt fs inum) fs
      (List.range (inoAt fs inum).num_blocks)).free_blocks = _
    rw [freeLoop_free_blocks, List.length_range]
  · show (freeLoop (inoAt fs inum) fs
      (List.range (inoAt fs inum).num_blocks)).free_inodes + 1 = _
    rw [hu_fi]
  · have hnm32 : nm.length < MAX_FILENAME := by
      rw [← hname]
      exact hg.live_name inum hlive
    simp only [fs_delete, hfind] at hfind2 hcnt
    refine create_succeeds_of _ nm hnm32 hfind2 ?_ (hgD.im_len.trans hgD.ti.symm)
    show countFalse ((freeLoop (inoAt fs inum) fs
      (List.range (inoAt fs inum).num_blocks)).inode_map.set inum false) ≠ 0
    omega

theorem c7_witness :
    (fs_delete demo1 nameA).fst = 0 ∧
    (fs_delete demo1 nameA).snd.free_blocks =
      demo1.free_blocks + (inoAt demo1 0).num_blocks ∧
    (fs_delete demo1 nameA).snd.free_inodes = demo1.free_inodes + 1 ∧
    liveIdx (fs_delete demo1 nameA).snd 0 = false ∧
    inoAt (fs_delete demo1 nameA).snd 0 = zeroInode ∧
    0 ≤ (fs_create_file (fs_delete demo1 nameA).snd nameA).fst :=
  c7_delete_frees_and_name_reusable demo1 nameA 0
    (Reachable.write demoFS nameA [7]
      (Reachable.create fs_create nameA Reachable.init))
    (by decide)

/-! ### Leak preservation -/

theorem leaked_create (fs : Filesystem) (nm : List Char) (b : Nat)
    (hg : Good fs) (hl : Leaked fs b) : Leaked (fs_create_file fs nm).snd b := by
  rw [fs_create_file]
  by_cases hlen : MAX_FILENAME ≤ nm.length
  · rw [if_pos hlen]
    exact hl
  rw [if_neg hlen]
  cases hfind : findInode fs nm with
  | some i => exact hl
  | none =>
      rcases hffi : find_free_inode fs with ⟨o, fs1⟩
      cases o with
      | none =>
          have hfst : (find_free_inode fs).fst = none := by rw [hffi]
          have hstate : fs1 = fs := by
            have h := find_free_inode_none_state fs hfst
            rw [hffi] at h
            exact h
          show Leaked fs1 b
          rw [hstate]
          exact hl
      | some inum =>
          have hfst : (find_free_inode fs).fst = some inum := by rw [hffi]
          obtain ⟨hi_lt, hi_free, _hi_min, hsnd⟩ :=
            find_free_inode_some fs inum (hg.im_len.trans hg.ti.symm) hfst
          have hfs1 : fs1 = { fs with inode_map := fs.inode_map.set inum true,
                                      free_inodes := fs.free_inodes - 1 } := by
            have h := hsnd
            rw [hffi] at h
            exact h
          show Leaked (updInode fs1 inum (fun ino =>
            { ino with name := nm.take (MAX_FILENAME - 1),
                       size := 0, num_blocks := 0, is_directory := false })) b
          subst hfs1
          set f : Inode → Inode := fun ino =>
            { ino with name := nm.take (MAX_FILENAME - 1),
                       size := 0, num_blocks := 0, is_directory := false } with hfdef
          set fs1 : Filesystem := { fs with inode_map := fs.inode_map.set inum true,
                                            free_inodes := fs.free_inodes - 1 } with hfs1d
          have himap_upd : (updInode fs1 inum f).inode_map =
              fs.inode_map.set inum true := rfl
          refine ⟨hl.1, ?_⟩
          rw [referencedB_false_iff]
          intro i hi hlv j hj
          by_cases hii : i = inum
          · exfalso
            rw [hii] at hj
            have hbound : inum < fs1.inodes.length := by
              rw [show fs1.inodes.length = fs.inodes.length from rfl, hg.inodes_len]
              rw [hg.im_len] at hi_lt
              exact hi_lt
            rw [inoAt_updInode_self fs1 inum f hbound] at hj
            exact absurd hj (Nat.not_lt_zero j)
          · rw [inoAt_updInode_ne fs1 inum i f (fun hh => hii hh.symm)] at hj ⊢
            have hlv_fs : liveIdx fs i = true := by
              rw [liveIdx] at hlv ⊢
              rw [himap_upd] at hlv
              rw [getD_set_ne fs.inode_map inum i true false (fun hh => hii hh.symm)] at hlv
              exact hlv
            exact (referencedB_false_iff fs b).mp hl.2 i hi hlv_fs j hj

theorem leaked_delete (fs : Filesystem) (nm : List Char) (b : Nat)
    (hg : Good fs) (hl : Leaked fs b) : Leaked (fs_delete fs nm).snd b := by
  rw [fs_delete]
  cases hfind : findInode fs nm with
  | none => exact hl
  | some inum =>
      obtain ⟨hlt, hlive, _hname⟩ := findInode_some fs nm inum hfind
      have hinum256 : inum < MAX_FILES := by
        rw [hg.ti] at hlt
        exact hlt
      have hnotref := (referencedB_false_iff fs b).mp hl.2
      obtain ⟨hu_tb, hu_ti, hu_fi, hu_imap, hu_inodes, hu_blocks, hu_bmlen⟩ :=
        freeLoop_unchanged (inoAt fs inum) (List.range (inoAt fs inum).num_blocks) fs
      have hmapb : (freeLoop (inoAt fs inum) fs
          (List.range (inoAt fs inum).num_blocks)).block_map.getD b false = true := by
        rw [freeLoop_map_not_mem _ _ _ _ ?_]
        · exact hl.1
        · intro j hj
          exact hnotref inum hinum256 hlive j (List.mem_range.mp hj)
      refine ⟨hmapb, ?_⟩
      rw [referencedB_false_iff]
      intro i hi hlv j hj
      by_cases hii : i = inum
      · exfalso
        rw [hii] at hlv
        rw [show liveIdx { freeLoop (inoAt fs inum) fs
              (List.range (inoAt fs inum).num_blocks) with
            inode_map := (freeLoop (inoAt fs inum) fs
              (List.range (inoAt fs inum).num_blocks)).inode_map.set inum false,
            free_inodes := (freeLoop (inoAt fs inum) fs
              (List.range (inoAt fs inum).num_blocks)).free_inodes + 1,
            inodes := (freeLoop (inoAt fs inum) fs
              (List.range (inoAt fs inum).num_blocks)).inodes.set inum zeroInode } inum =
            ((freeLoop (inoAt fs inum) fs
              (List.range (inoAt fs inum).num_blocks)).inode_map.set inum false).getD
                inum false from rfl] at hlv
        rw [getD_set_self_false _ inum] at hlv
        exact absurd hlv (by simp)
      · have hino_eq : ((freeLoop (inoAt fs inum) fs
            (List.range (inoAt fs inum).num_blocks)).inodes.set inum zeroInode).getD i
              zeroInode = fs.inodes.getD i zeroInode := by
          rw [getD_set_ne _ inum i zeroInode zeroInode (fun hh => hii hh.symm), hu_inodes]
        have hlv_fs : liveIdx fs i = true := by
          rw [liveIdx] at hlv ⊢
          rw [show ({ freeLoop (inoAt fs inum) fs
                (List.range (inoAt fs inum).num_blocks) with
              inode_map := (freeLoop (inoAt fs inum) fs
                (List.range (inoAt fs inum).num_blocks)).inode_map.set inum false,
              free_inodes := (freeLoop (inoAt fs inum) fs
                (List.range (inoAt fs inum).num_blocks)).free_inodes + 1,
              inodes := (freeLoop (inoAt fs inum) fs
                (List.range (inoAt fs inum).num_blocks)).inodes.set inum zeroInode }
              : Filesystem).inode_map =
            (freeLoop (inoAt fs inum) fs
              (List.range (inoAt fs inum).num_blocks)).inode_map.set inum false
            from rfl] at hlv
          rw [getD_set_ne _ inum i false false (fun hh => hii hh.symm), hu_imap] at hlv
          exact hlv
        have hino2 : inoAt { freeLoop (inoAt fs inum) fs
              (List.range (inoAt fs inum).num_blocks) with
            inode_map := (freeLoop (inoAt fs inum) fs
              (List.range (inoAt fs inum).num_blocks)).inode_map.set inum false,
            free_inodes := (freeLoop (inoAt fs inum) fs
              (List.range (inoAt fs inum).num_blocks)).free_inodes + 1,
            inodes := (freeLoop (inoAt fs inum) fs
              (List.range (inoAt fs inum).num_blocks)).inodes.set inum zeroInode } i =
            inoAt fs i := by
          unfold inoAt
          exact hino_eq
        rw [hino2] at hj ⊢
        exact hnotref i hi hlv_fs j hj

theorem leaked_write (fs : Filesystem) (nm : List Char) (data : List Nat)
    (b : Nat) (hg : Good fs) (hl : Leaked fs b) :
    Leaked (fs_write fs nm data).snd b := by
  by_cases hd : data.length = 0
  · rw [fs_write, if_pos hd]
    exact hl
  cases hfind : findInode fs nm with
  | none =>
      simp only [fs_write, if_neg hd, hfind]
      exact hl
  | some inum =>
      by_cases hneeded : (data.length + (BLOCK_SIZE - 1)) / BLOCK_SIZE ≤ MAX_BLOCKS
      · obtain ⟨hlt, hlive, _hname⟩ := findInode_some fs nm inum hfind
        have hinum256 : inum < MAX_FILES := by
          rw [hg.ti] at hlt
          exact hlt
        rw [fs_write_eq_found fs nm data inum hfind hd hneeded]
        set needed := (data.length + (BLOCK_SIZE - 1)) / BLOCK_SIZE with hneeddef
        set m := (inoAt fs inum).num_blocks with hmdef
        have hval : ∀ j ∈ List.range m,
            (inoAt fs inum).blocks.getD j 0 < fs.block_map.length ∧
            fs.block_map.getD ((inoAt fs inum).blocks.getD j 0) false = true := by
          intro j hj
          obtain ⟨h1, h2⟩ := hg.live_valid inum hlive j (List.mem_range.mp hj)
          exact ⟨by rw [hg.bm_len]; exact h1, h2⟩
        have hpair : (List.range m).Pairwise
            (fun a c => (inoAt fs inum).blocks.getD a 0 ≠ (inoAt fs inum).blocks.getD c 0) :=
          pairwise_range_ne _ _ (hg.live_distinct inum hlive)
        obtain ⟨hu_tb, hu_ti, hu_fi, hu_imap, hu_inodes, hu_blocks, hu_bmlen⟩ :=
          freeLoop_unchanged (inoAt fs inum) (List.range m) fs
        have hcount := freeLoop_count (inoAt fs inum) (List.range m) fs hval hpair
        set mid := freeLoop (inoAt fs inum) fs (List.range m) with hmiddef
        have hinomid : inoAt mid inum = inoAt fs inum := by
          unfold inoAt
          rw [hu_inodes]
        have hcmid : countFalse mid.block_map = countFalse fs.block_map + m := by
          rw [hcount, List.length_range]
        obtain ⟨alloc, SW⟩ := writeLoop_spec inum data needed needed 0 mid
          (by rw [hu_bmlen, hu_tb, hg.bm_len, hg.tb])
          (by rw [hu_blocks, hu_bmlen, hg.blocks_len, hg.bm_len])
          (by rw [hu_inodes, hg.inodes_len]; exact hinum256)
          (by rw [hinomid, hg.ino_blen inum]; omega)
        set res := writeLoop inum data needed mid (List.range' 0 needed) with hresdef
        set F := res.snd with hFdef
        have hothers : ∀ i, i ≠ inum → inoAt F i = inoAt fs i := by
          intro i hi
          unfold inoAt
          rw [SW.others i hi, hu_inodes]
        have ht_nb : (inoAt F inum).num_blocks = m := by
          rw [SW.t_nb, hinomid]
        have ht_in : ∀ j, j < alloc.length →
            (inoAt F inum).blocks.getD j 0 = alloc.getD j 0 := by
          intro j hj
          have h := SW.t_in j hj
          rwa [Nat.zero_add] at h
        have hnotref := (referencedB_false_iff fs b).mp hl.2
        have hbmid : mid.block_map.getD b false = true := by
          rw [hmiddef, freeLoop_map_not_mem _ _ _ _ ?_]
          · exact hl.1
          · intro j hj
            exact hnotref inum hinum256 hlive j (List.mem_range.mp hj)
        have hbnotalloc : b ∉ alloc := by
          intro hmem
          have h2 := (SW.afree b hmem).2
          rw [hbmid] at h2
          exact absurd h2 (by simp)
        have hFb : F.block_map.getD b false = true := by
          rw [SW.map_getD b, if_neg hbnotalloc]
          exact hbmid
        have hlF : ∀ i, liveIdx F i = liveIdx fs i := by
          intro i
          rw [liveIdx, liveIdx, SW.imap, hu_imap]
        rw [writeAlloc, List.range_eq_range', ← hresdef]
        cases hok : res.fst with
        | false =>
            have hsplit : res = (false, F) := by rw [← hok]
            rw [hsplit]
            show Leaked F b
            have hgt : ¬(needed ≤ countFalse mid.block_map) := by
              intro hcon
              have h := SW.ok_iff.mpr hcon
              rw [hok] at h
              exact absurd h (by simp)
            have hmle : m ≤ alloc.length := by
              rw [SW.alen]
              rw [hcmid] at hgt ⊢
              omega
            refine ⟨hFb, ?_⟩
            rw [referencedB_false_iff]
            intro i hi hlv j hj
            by_cases hii : i = inum
            · rw [hii] at hj ⊢
              rw [ht_nb] at hj
              have hjlt : j < alloc.length := by omega
              rw [ht_in j hjlt]
              intro heq
              rw [← heq] at hbnotalloc
              exact hbnotalloc (getD_mem alloc j 0 hjlt)
            · rw [hothers i hii] at hj ⊢
              have hlv_fs : liveIdx fs i = true := by
                rw [← hlF i]
                exact hlv
              exact hnotref i hi hlv_fs j hj
        | true =>
            have hsplit : res = (true, F) := by rw [← hok]
            rw [hsplit]
            show Leaked (updInode F inum (fun ino =>
              { ino with size := data.length, num_blocks := needed })) b
            set F2 := updInode F inum (fun ino =>
              { ino with size := data.length, num_blocks := needed }) with hF2def
            have hok2 : needed ≤ countFalse mid.block_map := SW.ok_iff.mp hok
            have hnle : needed ≤ alloc.length := by
              rw [SW.alen]
              omega
            have hinumF : inum < F.inodes.length := by
              rw [SW.inodes_len, hu_inodes, hg.inodes_len]
              exact hinum256
            have hinoF2 : inoAt F2 inum =
                { inoAt F inum with size := data.length, num_blocks := needed } := by
              rw [hF2def]
              exact inoAt_updInode_self F inum _ hinumF
            refine ⟨hFb, ?_⟩
            rw [referencedB_false_iff]
            intro i hi hlv j hj
            by_cases hii : i = inum
            · rw [hii] at hj ⊢
              rw [hinoF2] at hj ⊢
              have hj2 : j < needed := hj
              have hjlt : j < alloc.length := by omega
              show (inoAt F inum).blocks.getD j 0 ≠ b
              rw [ht_in j hjlt]
              intro heq
              rw [← heq] at hbnotalloc
              exact hbnotalloc (getD_mem alloc j 0 hjlt)
            · have hii2 : inoAt F2 i = inoAt fs i := by
                rw [hF2def, inoAt_updInode_ne F inum i _ (fun hh => hii hh.symm)]
                exact hothers i hii
              rw [hii2] at hj ⊢
              have hlvF : liveIdx F i = true := hlv
              have hlv_fs : liveIdx fs i = true := by
                rw [← hlF i]
                exact hlvF
              exact hnotref i hi hlv_fs j hj
      · simp only [fs_write, if_neg hd, hfind]
        rw [if_pos (by omega)]
        exact hl

/-- C9.  When `fs_write` fails with no space after allocating
`k = free_blocks + num_blocks` fresh blocks with `k` greater than the
inode's (unchanged) `num_blocks`, the blocks recorded at positions
`num_blocks .. k-1` of the inode's block array are marked used but lie
outside every live inode's first `num_blocks` entries (`Leaked`), and no
subsequent create, write or delete ever frees such a block: leaks persist
across every further operation, so the blocks are permanently lost to the
pool. -/
theorem c9_nospace_leaks_blocks_permanently :
    (∀ (fs : Filesystem) (nm : List Char) (data : List Nat) (inum : Nat),
      Reachable fs → findInode fs nm = some inum → data.length ≠ 0 →
      (data.length + (BLOCK_SIZE - 1)) / BLOCK_SIZE ≤ MAX_BLOCKS →
      fs.free_blocks + (inoAt fs inum).num_blocks <
        (data.length + (BLOCK_SIZE - 1)) / BLOCK_SIZE →
      (fs_write fs nm data).fst = -1 ∧
      (inoAt (fs_write fs nm data).snd inum).num_blocks =
        (inoAt fs inum).num_blocks ∧
      (∀ j, (inoAt fs inum).num_blocks ≤ j →
        j < fs.free_blocks + (inoAt fs inum).num_blocks →
        Leaked (fs_write fs nm data).snd
          ((inoAt (fs_write fs nm data).snd inum).blocks.getD j 0))) ∧
    (∀ (fs : Filesystem) (b : Nat), Reachable fs → Leaked fs b →
      (∀ nm, Leaked (fs_create_file fs nm).snd b) ∧
      (∀ nm data, Leaked (fs_write fs nm data).snd b) ∧
      (∀ nm, Leaked (fs_delete fs nm).snd b)) := by
  constructor
  · intro fs nm data inum hr hfind hd hneeded hfail
    have hg := reachable_good fs hr
    have W := write_found_cases fs nm data inum hg hfind hd hneeded
    have hm1 : (fs_write fs nm data).fst = -1 := W.1.mpr hfail
    obtain ⟨_hfree0, _hcnt0, hnb, hoth, himap, hvw, hdistw, hcrossw⟩ := W.2 hm1
    refine ⟨hm1, hnb, ?_⟩
    intro j hjm hjk
    refine ⟨(hvw j hjk).2, ?_⟩
    rw [referencedB_false_iff]
    intro i hi hlv j2 hj2
    have hlv_fs : liveIdx fs i = true := by
      rw [liveIdx, himap] at hlv
      exact hlv
    by_cases hii : i = inum
    · rw [hii] at hj2 ⊢
      rw [hnb] at hj2
      exact hdistw j2 j (by omega) hjk (by omega)
    · rw [hoth i hii] at hj2 ⊢
      intro heq
      exact (hcrossw i hii hlv_fs j j2 hjk hj2) heq.symm
  · intro fs b hr hl
    have hg := reachable_good fs hr
    exact ⟨fun nm => leaked_create fs nm b hg hl,
      fun nm data => leaked_write fs nm data b hg hl,
      fun nm => leaked_delete fs nm b hg hl⟩

/-- Pool state used for the leak witness: file `"a"` owns block 0, file
`"c"` owns 13 blocks, so only 2 blocks are free. -/
def lkA : Filesystem := (fs_create_file demo1 nameC).snd
def lkB : Filesystem := (fs_write lkA nameC (List.replicate 832 3)).snd
/-- The state after the failing 4-block write to `"a"`: blocks were leaked. -/
def lkF : Filesystem := (fs_write lkB nameA (List.replicate 256 5)).snd

theorem c9_witness :
    ((fs_write lkB nameA (List.replicate 256 5)).fst = -1 ∧
     (inoAt (fs_write lkB nameA (List.replicate 256 5)).snd 0).num_blocks =
       (inoAt lkB 0).num_blocks ∧
     (∀ j, (inoAt lkB 0).num_blocks ≤ j →
       j < lkB.free_blocks + (inoAt lkB 0).num_blocks →
       Leaked (fs_write lkB nameA (List.replicate 256 5)).snd
         ((inoAt (fs_write lkB nameA (List.replicate 256 5)).snd 0).blocks.getD j 0))) ∧
    ((∀ nm, Leaked (fs_create_file lkF nm).snd ((inoAt lkF 0).blocks.getD 1 0)) ∧
     (∀ nm data, Leaked (fs_write lkF nm data).snd ((inoAt lkF 0).blocks.getD 1 0)) ∧
     (∀ nm, Leaked (fs_delete lkF nm).snd ((inoAt lkF 0).blocks.getD 1 0))) := by
  have hreB : Reachable lkB :=
    Reachable.write lkA nameC (List.replicate 832 3)
      (Reachable.create demo1 nameC
        (Reachable.write demoFS nameA [7]
          (Reachable.create fs_create nameA Reachable.init)))
  have hreF : Reachable lkF :=
    Reachable.write lkB nameA (List.replicate 256 5) hreB
  have part1 := c9_nospace_leaks_blocks_permanently.1 lkB nameA
    (List.replicate 256 5) 0 hreB (by decide) (by decide) (by decide) (by decide)
  have hleak : Leaked lkF ((inoAt lkF 0).blocks.getD 1 0) :=
    part1.2.2 1 (by decide) (by decide)
  exact ⟨part1, c9_nospace_leaks_blocks_permanently.2 lkF _ hreF hleak⟩

/-- The blocks of live inodes are globally pairwise distinct and all lie
below `MAX_BLOCKS`, so the total number of referenced blocks is at most the
pool capacity. -/
theorem sumNumBlocks_le (fs : Filesystem) (hg : Good fs) :
    sumNumBlocks fs ≤ MAX_BLOCKS := by
  classical
  unfold sumNumBlocks
  rw [← Finset.sum_filter]
  have hcard : ∑ i ∈ (Finset.range MAX_FILES).filter (fun i => liveIdx fs i = true),
      (inoAt fs i).num_blocks =
      (((Finset.range MAX_FILES).filter (fun i => liveIdx fs i = true)).sigma
        (fun i => Finset.range (inoAt fs i).num_blocks)).card := by
    rw [Finset.card_sigma]
    simp [Finset.card_range]
  rw [hcard]
  have hsub : ∀ p ∈ ((Finset.range MAX_FILES).filter
      (fun i => liveIdx fs i = true)).sigma
        (fun i => Finset.range (inoAt fs i).num_blocks),
      (fun q : (_ : Nat) × Nat => (inoAt fs q.1).blocks.getD q.2 0) p ∈
        Finset.range MAX_BLOCKS := by
    intro p hp
    rw [Finset.mem_sigma] at hp
    obtain ⟨hp1, hp2⟩ := hp
    rw [Finset.mem_filter] at hp1
    rw [Finset.mem_range] at hp2
    rw [Finset.mem_range]
    exact (hg.live_valid p.1 hp1.2 p.2 hp2).1
  have hinj : Set.InjOn (fun q : (_ : Nat) × Nat => (inoAt fs q.1).blocks.getD q.2 0)
      ↑(((Finset.range MAX_FILES).filter (fun i => liveIdx fs i = true)).sigma
        (fun i => Finset.range (inoAt fs i).num_blocks)) := by
    rintro ⟨i1, j1⟩ hp ⟨i2, j2⟩ hq heq
    rw [Finset.mem_coe, Finset.mem_sigma, Finset.mem_filter, Finset.mem_range] at hp hq
    obtain ⟨⟨_, hlv1⟩, hj1⟩ := hp
    obtain ⟨⟨_, hlv2⟩, hj2⟩ := hq
    rw [Finset.mem_range] at hj1 hj2
    by_cases hi : i1 = i2
    · subst hi
      have hjj : j1 = j2 := by
        by_contra hne
        exact hg.live_distinct i1 hlv1 j1 j2 hj1 hj2 hne heq
      subst hjj
      rfl
    · exact absurd heq (hg.live_disjoint i1 i2 hlv1 hlv2 hi j1 j2 hj1 hj2)
  calc (((Finset.range MAX_FILES).filter (fun i => liveIdx fs i = true)).sigma
        (fun i => Finset.range (inoAt fs i).num_blocks)).card
      ≤ (Finset.range MAX_BLOCKS).card := Finset.card_le_card_of_injOn _ hsub hinj
    _ = MAX_BLOCKS := Finset.card_range _

/-- C10.  `fs_create` initializes `total_blocks` to
`MAX_FILE_SIZE / BLOCK_SIZE = MAX_BLOCKS = 16`, so the pool holds exactly
16 blocks in every reachable state; writing a single file of
`MAX_FILE_SIZE` bytes consumes every block (`free_blocks = 0`); and even
though the inode table has 256 slots, the sum of `num_blocks` over all
live inodes never exceeds 16. -/
theorem c10_pool_capacity (fs : Filesystem) (hr : Reachable fs) :
    MAX_BLOCKS = MAX_FILE_SIZE / BLOCK_SIZE ∧
    MAX_BLOCKS = 16 ∧
    fs_create.total_blocks = MAX_BLOCKS ∧
    fs.total_blocks = 16 ∧
    fs.total_inodes = 256 ∧
    sumNumBlocks fs ≤ 16 ∧
    (fs_write (fs_create_file fs_create nameA).snd nameA
        (List.replicate MAX_FILE_SIZE 1)).snd.free_blocks = 0 := by
  have hg := reachable_good fs hr
  exact ⟨rfl, rfl, rfl, hg.tb, hg.ti, sumNumBlocks_le fs hg, by decide⟩

theorem c10_witness :
    MAX_BLOCKS = MAX_FILE_SIZE / BLOCK_SIZE ∧
    MAX_BLOCKS = 16 ∧
    fs_create.total_blocks = MAX_BLOCKS ∧
    fs_create.total_blocks = 16 ∧
    fs_create.total_inodes = 256 ∧
    sumNumBlocks fs_create ≤ 16 ∧
    (fs_write (fs_create_file fs_create nameA).snd nameA
        (List.replicate MAX_FILE_SIZE 1)).snd.free_blocks = 0 :=
  c10_pool_capacity fs_create Reachable.init
